import Mathlib

/-!
Verification of the HP 3000 main-memory simulator (hp3000_mem.c): a shallow
embedding of the word read/write paths (access classification, physical
address formation, bounds checking, top-of-stack overlay) and of the byte
accessor state machine, together with theorems for the specified properties.

Machine integers are modelled as `Nat` with explicit masking (`% 65536` for
the 16-bit logical-address and data widths) exactly where the C code masks.
The trace output (`tpprintf`) has no semantic effect and is omitted.
-/

namespace HP3000

/-- Width of a logical (bank-relative) address: LA_WIDTH = 16 bits. -/
def LA_WIDTH : Nat := 16

/-- Mask for a logical address: LA_MASK = 2^16 - 1. -/
def LA_MASK : Nat := 65535

/-- The memory access classifications, in the order of the C enumeration
`ACCESS_CLASS` (which also indexes the `mem_access` properties table). -/
inductive ACCESS_CLASS where
  | absolute
  | absolute_mapped
  | fetch
  | fetch_checked
  | program
  | program_checked
  | data
  | data_checked
  | data_mapped
  | data_mapped_checked
  | stack
  | stack_checked
  | dma
deriving DecidableEq, Repr

/-- Selector for the external bank registers a classification may use. -/
inductive BankReg where
  | pbank
  | dbank
  | sbank
deriving DecidableEq, Repr

/-- The processor-owned registers consulted by the memory core: bank
registers, segment bounds, the privileged-mode flag, and the configured
memory size.  These are inputs only; the core never writes them. -/
structure Regs where
  PBANK : Nat
  DBANK : Nat
  SBANK : Nat
  PB : Nat
  PL : Nat
  DL : Nat
  SM : Nat
  SR : Nat
  PRIV : Bool
  MEMSIZE : Nat

/-- The mutable machine state the memory core reads and writes: the Word
Store `M`, the top-of-stack register file `TR`, and the two CPX1 interrupt
flags the core can raise. -/
structure State where
  M : Nat → Nat
  TR : Nat → Nat
  cpx1_ILLADDR : Bool
  cpx1_ADDRPAR : Bool

/-- The `bank_ptr` column of the `mem_access` classification table: which
bank register (if any) supplies the bank number for each classification. -/
def mem_access_bank : ACCESS_CLASS → Option BankReg
  | ACCESS_CLASS.absolute => none
  | ACCESS_CLASS.absolute_mapped => none
  | ACCESS_CLASS.fetch => some BankReg.pbank
  | ACCESS_CLASS.fetch_checked => some BankReg.pbank
  | ACCESS_CLASS.program => some BankReg.pbank
  | ACCESS_CLASS.program_checked => some BankReg.pbank
  | ACCESS_CLASS.data => some BankReg.dbank
  | ACCESS_CLASS.data_checked => some BankReg.dbank
  | ACCESS_CLASS.data_mapped => some BankReg.dbank
  | ACCESS_CLASS.data_mapped_checked => some BankReg.dbank
  | ACCESS_CLASS.stack => some BankReg.sbank
  | ACCESS_CLASS.stack_checked => some BankReg.sbank
  | ACCESS_CLASS.dma => none

/-- Read the bank register selected by a `BankReg`. -/
def Regs.bankVal (r : Regs) : BankReg → Nat
  | BankReg.pbank => r.PBANK
  | BankReg.dbank => r.DBANK
  | BankReg.sbank => r.SBANK

/-- Modelled from the spec: the `TO_OFFSET` macro of hp3000_defs.h (not under
src/) extracts the offset part of a physical address (its low 16 bits). -/
def TO_OFFSET (p : Nat) : Nat := p % 65536

/-- Modelled from the spec: the `TO_BANK` macro of hp3000_defs.h (not under
src/) extracts the bank part of a physical address (the bits above the
16-bit offset). -/
def TO_BANK (p : Nat) : Nat := p >>> 16

/-- Modelled from the spec: the `TO_PA` macro of hp3000_defs.h (not under
src/) concatenates a bank number and a 16-bit offset into a physical
address. -/
def TO_PA (bank offset : Nat) : Nat := bank <<< 16 ||| TO_OFFSET offset

/-- Physical-address formation shared by `mem_read` and `mem_write`:
produces `(address, bank, offset)`.  For classifications with no bank
register (absolute, DMA) the supplied offset is already a physical address
and is split for the overlay test and tracing; otherwise the bank register
is concatenated (unmasked, as in the C code) with the supplied offset. -/
def formParts (r : Regs) (c : ACCESS_CLASS) (offset : Nat) : Nat × Nat × Nat :=
  match mem_access_bank c with
  | none => (offset, TO_BANK offset, TO_OFFSET offset)
  | some br => (r.bankVal br <<< 16 ||| offset, r.bankVal br, offset)

/-- Result of `mem_read`: success with the value read (state is returned
unchanged on success but carried for uniformity), failure (illegal address:
value forced to 0, interrupt possibly flagged), or a Bounds Violation trap
(`MICRO_ABORT`, which never returns to the caller). -/
inductive ReadResult where
  | success (value : Nat) (s : State)
  | failure (value : Nat) (s : State)
  | trap (s : State)

/-- Result of `mem_write`. -/
inductive WriteResult where
  | success (s : State)
  | failure (s : State)
  | trap (s : State)

/-- The state carried in a `ReadResult`. -/
def ReadResult.state : ReadResult → State
  | ReadResult.success _ s => s
  | ReadResult.failure _ s => s
  | ReadResult.trap s => s

/-- The value carried in a `ReadResult` (0 for a trap, which produces none). -/
def ReadResult.value : ReadResult → Nat
  | ReadResult.success v _ => v
  | ReadResult.failure v _ => v
  | ReadResult.trap _ => 0

/-- Whether a read completed successfully. -/
def ReadResult.isSuccess : ReadResult → Bool
  | ReadResult.success _ _ => true
  | _ => false

/-- Whether a read aborted with a Bounds Violation trap. -/
def ReadResult.isTrap : ReadResult → Bool
  | ReadResult.trap _ => true
  | _ => false

/-- The state carried in a `WriteResult`. -/
def WriteResult.state : WriteResult → State
  | WriteResult.success s => s
  | WriteResult.failure s => s
  | WriteResult.trap s => s

/-- Whether a write completed successfully. -/
def WriteResult.isSuccess : WriteResult → Bool
  | WriteResult.success _ => true
  | _ => false

/-- Whether a write aborted with a Bounds Violation trap. -/
def WriteResult.isTrap : WriteResult → Bool
  | WriteResult.trap _ => true
  | _ => false

/-- The word read from memory (`mem_read` of hp3000_mem.c).  `isCPU` is the
`dptr == &cpu_dev` test: whether the requesting device is the CPU. -/
def mem_read (r : Regs) (s : State) (isCPU : Bool) (c : ACCESS_CLASS)
    (offset0 : Nat) : ReadResult :=
  let parts := formParts r c offset0
  let address := parts.1
  let bank := parts.2.1
  let offset := parts.2.2
  if r.MEMSIZE ≤ address then
    ReadResult.failure 0 (if isCPU then { s with cpx1_ILLADDR := true } else s)
  else
    match c with
    | ACCESS_CLASS.dma | ACCESS_CLASS.absolute | ACCESS_CLASS.fetch
    | ACCESS_CLASS.program | ACCESS_CLASS.data =>
        ReadResult.success (s.M address) s
    | ACCESS_CLASS.absolute_mapped | ACCESS_CLASS.data_mapped
    | ACCESS_CLASS.stack =>
        if r.SM < offset ∧ offset ≤ r.SM + r.SR ∧ bank = r.SBANK then
          ReadResult.success (s.TR (r.SM + r.SR - offset)) s
        else
          ReadResult.success (s.M address) s
    | ACCESS_CLASS.fetch_checked =>
        if r.PB ≤ offset ∧ offset ≤ r.PL then
          ReadResult.success (s.M address) s
        else
          ReadResult.trap s
    | ACCESS_CLASS.program_checked =>
        if (r.PB ≤ offset ∧ offset ≤ r.PL) ∨ r.PRIV = true then
          ReadResult.success (s.M address) s
        else
          ReadResult.trap s
    | ACCESS_CLASS.data_checked =>
        if (r.DL ≤ offset ∧ offset ≤ r.SM + r.SR) ∨ r.PRIV = true then
          ReadResult.success (s.M address) s
        else
          ReadResult.trap s
    | ACCESS_CLASS.data_mapped_checked | ACCESS_CLASS.stack_checked =>
        if r.SM < offset ∧ offset ≤ r.SM + r.SR ∧ bank = r.SBANK then
          ReadResult.success (s.TR (r.SM + r.SR - offset)) s
        else if (r.DL ≤ offset ∧ offset ≤ r.SM + r.SR) ∨ r.PRIV = true then
          ReadResult.success (s.M address) s
        else
          ReadResult.trap s

/-- The word written to memory (`mem_write` of hp3000_mem.c).  Memory words
are `MEMORY_WORD` (16 bits), so the stored value is masked to 16 bits; TOS
registers are `HP_WORD` and store the value unmasked, as in the C code.
The `data_mapped_checked`/`stack_checked` cases write the TOS register when
the window matches and then fall through into the `data_checked` legality
test, so a matching checked write also writes through to memory. -/
def mem_write (r : Regs) (s : State) (isCPU : Bool) (c : ACCESS_CLASS)
    (offset0 value : Nat) : WriteResult :=
  let parts := formParts r c offset0
  let address := parts.1
  let bank := parts.2.1
  let offset := parts.2.2
  if r.MEMSIZE ≤ address then
    WriteResult.failure (if isCPU then { s with cpx1_ILLADDR := true } else s)
  else
    match c with
    | ACCESS_CLASS.dma | ACCESS_CLASS.absolute | ACCESS_CLASS.data =>
        WriteResult.success { s with M := Function.update s.M address (value % 65536) }
    | ACCESS_CLASS.absolute_mapped | ACCESS_CLASS.data_mapped
    | ACCESS_CLASS.stack =>
        if r.SM < offset ∧ offset ≤ r.SM + r.SR ∧ bank = r.SBANK then
          WriteResult.success { s with TR := Function.update s.TR (r.SM + r.SR - offset) value }
        else
          WriteResult.success { s with M := Function.update s.M address (value % 65536) }
    | ACCESS_CLASS.data_mapped_checked | ACCESS_CLASS.stack_checked =>
        let s1 :=
          if r.SM < offset ∧ offset ≤ r.SM + r.SR ∧ bank = r.SBANK then
            { s with TR := Function.update s.TR (r.SM + r.SR - offset) value }
          else
            s
        if (r.DL ≤ offset ∧ offset ≤ r.SM + r.SR) ∨ r.PRIV = true then
          WriteResult.success { s1 with M := Function.update s1.M address (value % 65536) }
        else
          WriteResult.trap s1
    | ACCESS_CLASS.data_checked =>
        if (r.DL ≤ offset ∧ offset ≤ r.SM + r.SR) ∨ r.PRIV = true then
          WriteResult.success { s with M := Function.update s.M address (value % 65536) }
        else
          WriteResult.trap s
    | ACCESS_CLASS.fetch | ACCESS_CLASS.fetch_checked
    | ACCESS_CLASS.program | ACCESS_CLASS.program_checked =>
        WriteResult.failure { s with cpx1_ADDRPAR := true }

/-- Bank concatenation is addition when the offset fits in 16 bits. -/
theorem bank_lor_eq_add (b o : Nat) (h : o < 65536) :
    b <<< 16 ||| o = 65536 * b + o := by
  rw [Nat.shiftLeft_eq]
  calc b * 2 ^ 16 ||| o = 2 ^ 16 * b ||| o := by rw [Nat.mul_comm]
    _ = 2 ^ 16 * b + o := (Nat.mul_add_lt_is_or (show o < 2 ^ 16 from h) b).symm
    _ = 65536 * b + o := by norm_num

/-- The offset part of a formed address is recovered by masking. -/
theorem bank_lor_mod (b o : Nat) (h : o < 65536) :
    (b <<< 16 ||| o) % 65536 = o := by
  rw [bank_lor_eq_add b o h]
  omega

/-- Bank concatenation is injective on 16-bit offsets. -/
theorem bank_lor_inj (b o1 o2 : Nat) (h1 : o1 < 65536) (h2 : o2 < 65536)
    (h : b <<< 16 ||| o1 = b <<< 16 ||| o2) : o1 = o2 := by
  rw [bank_lor_eq_add b o1 h1, bank_lor_eq_add b o2 h2] at h
  omega

/-- Modelled from the spec: the upper (even-address) byte of a word, as the
`UPPER_BYTE` macro of hp3000_defs.h (not under src/) extracts it. -/
def UPPER_BYTE (w : Nat) : Nat := w / 256 % 256

/-- Modelled from the spec: the lower (odd-address) byte of a word
(`LOWER_BYTE` macro of hp3000_defs.h, not under src/). -/
def LOWER_BYTE (w : Nat) : Nat := w % 256

/-- Modelled from the spec: splice a byte into the upper half of a word,
keeping the lower half (`REPLACE_UPPER` macro of hp3000_defs.h, not under
src/: the result keeps only the low 8 bits of `w` and the low 8 bits of `b`
shifted up). -/
def REPLACE_UPPER (w b : Nat) : Nat := w % 256 + b % 256 * 256

/-- Modelled from the spec: splice a byte into the lower half of a word,
keeping the upper bits (`REPLACE_LOWER` macro of hp3000_defs.h, not under
src/: the low 8 bits of `w` are replaced by the low 8 bits of `b`). -/
def REPLACE_LOWER (w b : Nat) : Nat := (w - w % 256) + b % 256

/-- Modelled from the spec: `INVERT_CHECK` (hp3000_cpu.h, not under src/)
inverts the bounds-check sense of an access classification, exchanging each
classification with its partner in the enumeration (DMA has no partner and
is left fixed).  The byte accessor stores the inverted classification so
that the initial positioning honors the caller's checked/unchecked request
while succeeding accesses use the opposite sense. -/
def INVERT_CHECK : ACCESS_CLASS → ACCESS_CLASS
  | ACCESS_CLASS.absolute => ACCESS_CLASS.absolute_mapped
  | ACCESS_CLASS.absolute_mapped => ACCESS_CLASS.absolute
  | ACCESS_CLASS.fetch => ACCESS_CLASS.fetch_checked
  | ACCESS_CLASS.fetch_checked => ACCESS_CLASS.fetch
  | ACCESS_CLASS.program => ACCESS_CLASS.program_checked
  | ACCESS_CLASS.program_checked => ACCESS_CLASS.program
  | ACCESS_CLASS.data => ACCESS_CLASS.data_checked
  | ACCESS_CLASS.data_checked => ACCESS_CLASS.data
  | ACCESS_CLASS.data_mapped => ACCESS_CLASS.data_mapped_checked
  | ACCESS_CLASS.data_mapped_checked => ACCESS_CLASS.data_mapped
  | ACCESS_CLASS.stack => ACCESS_CLASS.stack_checked
  | ACCESS_CLASS.stack_checked => ACCESS_CLASS.stack
  | ACCESS_CLASS.dma => ACCESS_CLASS.dma

/-- Whether a classification is one of the bounds-checked variants. -/
def isCheckedClass : ACCESS_CLASS → Bool
  | ACCESS_CLASS.fetch_checked => true
  | ACCESS_CLASS.program_checked => true
  | ACCESS_CLASS.data_checked => true
  | ACCESS_CLASS.data_mapped_checked => true
  | ACCESS_CLASS.stack_checked => true
  | _ => false

/-- Modelled from the spec: `cpu_byte_ea` (hp3000_cpu.c, not under src/)
converts a relative byte offset to the word address containing it (the
offset divided by two, masked to the logical-address width) and, for
checked classifications, validates the starting word (and, when a non-zero
block length is supplied, the whole block through its final byte) against
the data-segment bounds, trapping with a Bounds Violation (`none`) unless
the access is within bounds or the processor is privileged. -/
def cpu_byte_ea (r : Regs) (c : ACCESS_CLASS) (byte_offset block_length : Nat) :
    Option Nat :=
  let starting_word := byte_offset / 2 % 65536
  if isCheckedClass c then
    let ending_word :=
      (byte_offset + (block_length - 1)) / 2 % 65536
    if (r.DL ≤ starting_word ∧ ending_word ≤ r.SM + r.SR) ∨ r.PRIV = true then
      some starting_word
    else
      none
  else
    some starting_word

/-- The CPU-side machine state threaded through the byte accessor: the
memory/TOS/flag state plus counters of the underlying word reads and writes
actually performed (instrumentation for the access-count properties). -/
structure CpuState where
  s : State
  reads : Nat
  writes : Nat

/-- Modelled from the spec: `cpu_read_memory` (hp3000_cpu.c, not under
src/) performs a word read as the central processor and aborts nonlocally
(illegal address or Bounds Violation, modelled as `none`) when the read
does not succeed. -/
def cpu_read_memory (r : Regs) (cpu : CpuState) (c : ACCESS_CLASS)
    (offset : Nat) : Option (Nat × CpuState) :=
  match mem_read r cpu.s true c offset with
  | ReadResult.success v s1 => some (v, { s := s1, reads := cpu.reads + 1, writes := cpu.writes })
  | ReadResult.failure _ _ => none
  | ReadResult.trap _ => none

/-- Modelled from the spec: `cpu_write_memory` (hp3000_cpu.c, not under
src/) performs a word write as the central processor and aborts nonlocally
(`none`) when the write does not succeed. -/
def cpu_write_memory (r : Regs) (cpu : CpuState) (c : ACCESS_CLASS)
    (offset value : Nat) : Option CpuState :=
  match mem_write r cpu.s true c offset value with
  | WriteResult.success s1 => some { s := s1, reads := cpu.reads, writes := cpu.writes + 1 }
  | WriteResult.failure _ => none
  | WriteResult.trap _ => none

/-- The byte accessor structure (`BYTE_ACCESS` of hp3000_mem.h).  The C
structure holds a pointer to the caller's byte-offset variable; here that
variable lives in `BS.var` and the pointer is implicit.  Fields left
uninitialized by the C code before `mem_init_byte` runs are set to 0. -/
structure BYTE_ACCESS where
  cls : ACCESS_CLASS
  write_needed : Bool
  first_byte_offset : Nat
  length : Nat
  count : Nat
  initial_byte_address : Nat
  initial_word_address : Nat
  first_byte_address : Nat
  word_address : Nat
  data_word : Nat
  initial_byte_offset : Nat

/-- A byte accessor together with the caller-owned byte-offset variable it
is bound to and the CPU state its word accesses act on. -/
structure BS where
  cpu : CpuState
  var : Nat
  bap : BYTE_ACCESS

/-- Rewrite the current buffer word (`mem_update_byte`): if the occupancy
flag is set, re-read the current word, merge in its lower byte (preserving
the partner byte sequential writes never touched), and write the merged
word back. -/
def mem_update_byte (r : Regs) (bs : BS) : Option BS :=
  if bs.bap.write_needed then
    match cpu_read_memory r bs.cpu bs.bap.cls bs.bap.word_address with
    | none => none
    | some (target, cpu1) =>
      let dw := REPLACE_LOWER bs.bap.data_word target
      match cpu_write_memory r cpu1 bs.bap.cls bs.bap.word_address dw with
      | none => none
      | some cpu2 =>
          some { bs with cpu := cpu2,
                         bap := { bs.bap with write_needed := false, data_word := dw } }
  else
    some bs

/-- Set a byte accessor (`mem_set_byte`): flush any pending write, merge
the bytes accessed since the last positioning into the tracked extent
(only when an access was made and this is not the initialization call),
then recompute the word address from the current byte-offset variable with
the inverted check sense, record the physical starting byte address, and
bias the word address back by one word when the starting offset is even. -/
def mem_set_byte (r : Regs) (bs0 : BS) : Option BS :=
  match mem_update_byte r bs0 with
  | none => none
  | some bs =>
    let bap : BYTE_ACCESS := bs.bap
    let bap : BYTE_ACCESS :=
      if 0 < bap.count ∧ 0 < bap.initial_byte_address then
        let bap : BYTE_ACCESS :=
          if bap.initial_byte_address < bap.first_byte_address then
            { bap with
                length := bap.length + bap.first_byte_address - bap.initial_byte_address,
                first_byte_address := bap.initial_byte_address,
                first_byte_offset := bap.initial_byte_offset }
          else
            { bap with count := bap.count + bap.initial_byte_address - bap.first_byte_address }
        let bap : BYTE_ACCESS :=
          if bap.length < bap.count then { bap with length := bap.count } else bap
        { bap with count := 0 }
      else
        bap
    let bap : BYTE_ACCESS := { bap with initial_byte_offset := bs.var }
    match cpu_byte_ea r (INVERT_CHECK bap.cls) bs.var bap.count with
    | none => none
    | some wa =>
      let bank : Nat :=
        match mem_access_bank bap.cls with
        | none => 0
        | some br => r.bankVal br
      let bap : BYTE_ACCESS := { bap with word_address := wa }
      let bap : BYTE_ACCESS := { bap with
          initial_byte_address := TO_PA bank bap.word_address * 2 + bap.initial_byte_offset % 2 }
      let bap : BYTE_ACCESS :=
        if bap.initial_byte_offset % 2 = 0 then
          { bap with word_address := (bap.word_address + 65535) % 65536 }
        else
          bap
      some { bs with bap := bap }

/-- Initialize a byte accessor (`mem_init_byte`): store the inverted
classification, bind the offset variable, seed the extent bookkeeping, run
one positioning pass (passing the block length in `count` with
`initial_byte_address = 0` marking the initialization call), then capture
the starting word and byte addresses and clear the access count. -/
def mem_init_byte (r : Regs) (cpu : CpuState) (c : ACCESS_CLASS)
    (byte_offset block_length : Nat) : Option BS :=
  let bap : BYTE_ACCESS :=
    { cls := INVERT_CHECK c
      write_needed := false
      first_byte_offset := byte_offset
      length := block_length
      count := block_length
      initial_byte_address := 0
      initial_word_address := 0
      first_byte_address := 0
      word_address := 0
      data_word := 0
      initial_byte_offset := 0 }
  match mem_set_byte r { cpu := cpu, var := byte_offset, bap := bap } with
  | none => none
  | some bs =>
      some { bs with bap := { bs.bap with
               initial_word_address := bs.bap.word_address,
               first_byte_address := bs.bap.initial_byte_address,
               count := 0 } }

/-- Reset a byte accessor (`mem_reset_byte`): flush any pending write,
restore the byte-offset variable and word address from the values captured
by the last positioning and by initialization respectively, and clear the
access count.  The extent fields are deliberately not touched. -/
def mem_reset_byte (r : Regs) (bs0 : BS) : Option BS :=
  match mem_update_byte r bs0 with
  | none => none
  | some bs =>
      some { bs with var := bs.bap.initial_byte_offset,
                     bap := { bs.bap with
                        word_address := bs.bap.initial_word_address,
                        count := 0 } }

/-- Look up a byte in a table (`mem_lookup_byte`): compute the byte offset
from the bound variable plus the index, convert it to a word address, and
read the containing word only when that address differs from the word
address of the prior access, caching it; return the byte by parity. -/
def mem_lookup_byte (r : Regs) (bs : BS) (index : Nat) : Option (Nat × BS) :=
  let byte_offset := (bs.var + index) % 65536
  match cpu_byte_ea r bs.bap.cls byte_offset 0 with
  | none => none
  | some wa =>
    let step : Option BS :=
      if wa ≠ bs.bap.word_address then
        match cpu_read_memory r bs.cpu bs.bap.cls wa with
        | none => none
        | some (dw, cpu1) =>
            some { bs with cpu := cpu1,
                           bap := { bs.bap with word_address := wa, data_word := dw } }
      else
        some bs
    match step with
    | none => none
    | some bs1 =>
        if byte_offset % 2 = 1 then
          some (LOWER_BYTE bs1.bap.data_word, bs1)
        else
          some (UPPER_BYTE bs1.bap.data_word, bs1)

/-- Read the next byte (`mem_read_byte`): odd offsets return the lower half
of the buffered word (reading it first only on the very first access); even
offsets flush any pending write, advance the word address, read the new
word, and return its upper half.  The bound offset and count advance. -/
def mem_read_byte (r : Regs) (bs : BS) : Option (Nat × BS) :=
  if bs.var % 2 = 1 then
    let step : Option BS :=
      if bs.bap.count = 0 then
        match cpu_read_memory r bs.cpu bs.bap.cls bs.bap.word_address with
        | none => none
        | some (dw, cpu1) =>
            some { bs with cpu := cpu1, bap := { bs.bap with data_word := dw } }
      else
        some bs
    match step with
    | none => none
    | some bs1 =>
        some (LOWER_BYTE bs1.bap.data_word,
              { bs1 with var := (bs1.var + 1) % 65536,
                         bap := { bs1.bap with count := bs1.bap.count + 1 } })
  else
    let step : Option BS :=
      if bs.bap.write_needed then
        match cpu_write_memory r bs.cpu bs.bap.cls bs.bap.word_address bs.bap.data_word with
        | none => none
        | some cpu1 =>
            some { bs with cpu := cpu1, bap := { bs.bap with write_needed := false } }
      else
        some bs
    match step with
    | none => none
    | some bs1 =>
      let wa := (bs1.bap.word_address + 1) % 65536
      match cpu_read_memory r bs1.cpu bs1.bap.cls wa with
      | none => none
      | some (dw, cpu2) =>
          let bap1 : BYTE_ACCESS :=
            { bs1.bap with word_address := wa, data_word := dw, count := bs1.bap.count + 1 }
          some (UPPER_BYTE dw,
                { bs1 with cpu := cpu2, var := (bs1.var + 1) % 65536, bap := bap1 })

/-- Write the next byte (`mem_write_byte`): at an odd offset the word is
read first on the very first access, the lower byte is spliced in, and the
word is written through immediately; at an even offset the word address
advances and the upper byte is buffered with the occupancy flag set,
deferring the write.  The bound offset and count advance. -/
def mem_write_byte (r : Regs) (bs : BS) (byte : Nat) : Option BS :=
  if bs.var % 2 = 1 then
    let step : Option BS :=
      if bs.bap.count = 0 then
        match cpu_read_memory r bs.cpu bs.bap.cls bs.bap.word_address with
        | none => none
        | some (dw, cpu1) =>
            some { bs with cpu := cpu1, bap := { bs.bap with data_word := dw } }
      else
        some bs
    match step with
    | none => none
    | some bs1 =>
      let dw := REPLACE_LOWER bs1.bap.data_word byte
      match cpu_write_memory r bs1.cpu bs1.bap.cls bs1.bap.word_address dw with
      | none => none
      | some cpu2 =>
          let bap1 : BYTE_ACCESS :=
            { bs1.bap with data_word := dw, write_needed := false, count := bs1.bap.count + 1 }
          some { bs1 with cpu := cpu2, var := (bs1.var + 1) % 65536, bap := bap1 }
  else
    some { bs with var := (bs.var + 1) % 65536,
                   bap := { bs.bap with
                      word_address := (bs.bap.word_address + 1) % 65536,
                      data_word := REPLACE_UPPER bs.bap.data_word byte,
                      write_needed := true,
                      count := bs.bap.count + 1 } }

/-- Modify the last byte accessed (`mem_modify_byte`): when the current
offset is odd the last byte was the upper half, so splice the upper half
and mark the buffer pending; when even, splice the lower half and write
through immediately.  The offset variable does not move. -/
def mem_modify_byte (r : Regs) (bs : BS) (byte : Nat) : Option BS :=
  if bs.var % 2 = 1 then
    some { bs with bap := { bs.bap with
              data_word := REPLACE_UPPER bs.bap.data_word byte,
              write_needed := true } }
  else
    let dw := REPLACE_LOWER bs.bap.data_word byte
    match cpu_write_memory r bs.cpu bs.bap.cls bs.bap.word_address dw with
    | none => none
    | some cpu1 =>
        some { bs with cpu := cpu1,
                       bap := { bs.bap with data_word := dw, write_needed := false } }

/-- Post the current buffer word (`mem_post_byte`): write the buffered word
verbatim if the occupancy flag is set. -/
def mem_post_byte (r : Regs) (bs : BS) : Option BS :=
  if bs.bap.write_needed then
    match cpu_write_memory r bs.cpu bs.bap.cls bs.bap.word_address bs.bap.data_word with
    | none => none
    | some cpu1 =>
        some { bs with cpu := cpu1, bap := { bs.bap with write_needed := false } }
  else
    some bs

/-- Write a list of bytes through an accessor with `mem_write_byte`. -/
def writeBytes (r : Regs) : BS → List Nat → Option BS
  | bs, [] => some bs
  | bs, b :: rest =>
    match mem_write_byte r bs b with
    | none => none
    | some bs1 => writeBytes r bs1 rest

/-- Read `n` sequential bytes through an accessor with `mem_read_byte`. -/
def readBytes (r : Regs) : BS → Nat → Option (List Nat × BS)
  | bs, 0 => some ([], bs)
  | bs, n + 1 =>
    match mem_read_byte r bs with
    | none => none
    | some (b, bs1) =>
      match readBytes r bs1 n with
      | none => none
      | some (l, bs2) => some (b :: l, bs2)

/-! ### Concrete machine states used by counterexamples and witnesses -/

/-- Example register file: stack bank 1, stack marker 10, two TOS
registers, unprivileged, 131072 words of memory. -/
def cexR : Regs :=
  { PBANK := 0, DBANK := 0, SBANK := 1, PB := 0, PL := 0, DL := 0,
    SM := 10, SR := 2, PRIV := false, MEMSIZE := 131072 }

/-- Example machine state: every memory word holds 7, every TOS register 0,
no interrupt pending. -/
def cexS : State :=
  { M := fun _ => 7, TR := fun _ => 0, cpx1_ILLADDR := false, cpx1_ADDRPAR := false }

/-! ### Claim C1 -/

/-- Claim C1 counterexample: at the concrete input where the overlay window
matches (class `stack`, offset 11 with SM = 10, SR = 2, SBANK = 1, formed
address 65547 in range), the unchecked overlay write succeeds and writes
TOS register 1, but the Word Store word at the formed physical address
still holds its old value 7, not the written 42 — so the claim that the
Word Store is "also written in all matching cases" is false: the unchecked
overlay write is write-only, not write-through. -/
theorem C1_counterexample :
    (mem_write cexR cexS true ACCESS_CLASS.stack 11 42).isSuccess = true ∧
    (mem_write cexR cexS true ACCESS_CLASS.stack 11 42).state.TR 1 = 42 ∧
    (mem_write cexR cexS true ACCESS_CLASS.stack 11 42).state.M 65547 = 7 ∧
    (7 : Nat) ≠ 42 := by
  refine ⟨by decide, by decide, by decide, by decide⟩

/-- Claim C1 as amended: for the overlay-eligible unchecked classifications
(absolute-overlay, data-overlay, stack) at an in-range address, when the
overlay window test matches, only the overlay register is written and the
Word Store is left untouched; when it does not match, only the Word Store
word at the formed physical address is written.  (The always-write-through
behavior belongs to the checked classes only.) -/
theorem C1_unchecked_overlay_write (r : Regs) (s : State) (isCPU : Bool)
    (c : ACCESS_CLASS)
    (hc : c = ACCESS_CLASS.absolute_mapped ∨ c = ACCESS_CLASS.data_mapped ∨
          c = ACCESS_CLASS.stack)
    (offset v : Nat)
    (haddr : (formParts r c offset).1 < r.MEMSIZE) :
    (r.SM < (formParts r c offset).2.2 ∧ (formParts r c offset).2.2 ≤ r.SM + r.SR ∧
       (formParts r c offset).2.1 = r.SBANK →
       mem_write r s isCPU c offset v =
         WriteResult.success
           { s with TR := Function.update s.TR (r.SM + r.SR - (formParts r c offset).2.2) v }) ∧
    (¬ (r.SM < (formParts r c offset).2.2 ∧ (formParts r c offset).2.2 ≤ r.SM + r.SR ∧
        (formParts r c offset).2.1 = r.SBANK) →
       mem_write r s isCPU c offset v =
         WriteResult.success
           { s with M := Function.update s.M (formParts r c offset).1 (v % 65536) }) := by
  rcases hc with hc | hc | hc <;> subst hc <;>
    simp only [mem_write, formParts, mem_access_bank, Regs.bankVal] at haddr ⊢ <;>
    rw [if_neg (not_le.mpr haddr)] <;>
    exact ⟨fun hwin => by rw [if_pos hwin], fun hwin => by rw [if_neg hwin]⟩

/-- Claim C1 witness: the amended theorem applied at the counterexample
input, where the window matches. -/
theorem C1_witness :
    mem_write cexR cexS true ACCESS_CLASS.stack 11 42 =
      WriteResult.success
        { cexS with TR := Function.update cexS.TR (cexR.SM + cexR.SR - 11) 42 } :=
  (C1_unchecked_overlay_write cexR cexS true ACCESS_CLASS.stack
      (Or.inr (Or.inr rfl)) 11 42 (by decide)).1 (by decide)

/-! ### Claim C2 -/

/-- Claim C2: for a checked stack/data-overlay write whose offset lies in
the overlay window on the stack bank and which passes the data-segment
legality test, both the TOS register at index `SM + SR - offset` and the
underlying Word Store word at the formed physical address are updated, and
a subsequent unchecked (absolute) read of that physical address returns
the written value with success. -/
theorem C2_checked_overlay_write_through (r : Regs) (s : State) (isCPU : Bool)
    (c : ACCESS_CLASS)
    (hc : c = ACCESS_CLASS.data_mapped_checked ∨ c = ACCESS_CLASS.stack_checked)
    (offset v : Nat)
    (hv : v < 65536)
    (hwin : r.SM < offset ∧ offset ≤ r.SM + r.SR ∧ (formParts r c offset).2.1 = r.SBANK)
    (hlegal : (r.DL ≤ offset ∧ offset ≤ r.SM + r.SR) ∨ r.PRIV = true)
    (haddr : (formParts r c offset).1 < r.MEMSIZE) :
    ∃ s1, mem_write r s isCPU c offset v = WriteResult.success s1 ∧
      s1.TR (r.SM + r.SR - offset) = v ∧
      s1.M (formParts r c offset).1 = v ∧
      mem_read r s1 isCPU ACCESS_CLASS.absolute (formParts r c offset).1 =
        ReadResult.success v s1 := by
  rcases hc with hc | hc <;> subst hc <;>
    simp only [mem_write, mem_read, formParts, mem_access_bank, Regs.bankVal]
      at hwin haddr ⊢ <;>
    rw [if_neg (not_le.mpr haddr)] <;>
    refine ⟨_, by rw [if_pos hwin, if_pos hlegal], ?_, ?_, ?_⟩ <;>
    simp only [if_pos hwin, Function.update_same, Nat.mod_eq_of_lt hv] <;>
    rw [if_neg (not_le.mpr haddr)]

/-- Claim C2 witness: a privileged checked stack write at offset 11 inside
the window (SM = 10, SR = 2) both sets TOS register 1 and writes through,
and reading the physical address back absolutely yields the value. -/
theorem C2_witness :
    ∃ s1, mem_write cexR cexS true ACCESS_CLASS.stack_checked 11 42 =
            WriteResult.success s1 ∧
      s1.TR (cexR.SM + cexR.SR - 11) = 42 ∧
      s1.M (formParts cexR ACCESS_CLASS.stack_checked 11).1 = 42 ∧
      mem_read cexR s1 true ACCESS_CLASS.absolute
          (formParts cexR ACCESS_CLASS.stack_checked 11).1 =
        ReadResult.success 42 s1 :=
  C2_checked_overlay_write_through cexR cexS true ACCESS_CLASS.stack_checked
    (Or.inr rfl) 11 42 (by decide) (by decide) (by decide) (by decide)

/-! ### Claim C3 -/

/-- Claim C3: when the formed physical address is at or beyond the
configured memory size, `mem_read` fails with value 0 and `mem_write`
fails, both leaving the Word Store (and TOS registers) unmodified; the
Illegal Address interrupt flag is set exactly when the requester is the
central processor, and no Bounds Violation trap is raised (the results are
`failure`, not `trap`). -/
theorem C3_illegal_address (r : Regs) (s : State) (isCPU : Bool)
    (c : ACCESS_CLASS) (offset v : Nat)
    (hflag : s.cpx1_ILLADDR = false)
    (haddr : r.MEMSIZE ≤ (formParts r c offset).1) :
    mem_read r s isCPU c offset =
      ReadResult.failure 0 { s with cpx1_ILLADDR := isCPU } ∧
    mem_write r s isCPU c offset v =
      WriteResult.failure { s with cpx1_ILLADDR := isCPU } := by
  have hs : (if isCPU then { s with cpx1_ILLADDR := true } else s) =
      { s with cpx1_ILLADDR := isCPU } := by
    cases isCPU with
    | false => simp only [if_neg Bool.false_ne_true]; rw [← hflag]
    | true => rw [if_pos rfl]
  cases c <;>
    simp only [mem_read, mem_write, formParts, mem_access_bank, Regs.bankVal]
      at haddr ⊢ <;>
    rw [if_pos haddr, if_pos haddr, hs] <;> exact ⟨rfl, rfl⟩

/-- Claim C3 witness: a CPU stack access at offset 65535 forms address
131071 + 65536... with SBANK = 1 the formed address 131071 is in range, so
use SBANK shifted out of range: an absolute access at physical address
200000 (beyond MEMSIZE = 131072) fails on read and write with the
interrupt flag set. -/
theorem C3_witness :
    mem_read cexR cexS true ACCESS_CLASS.absolute 200000 =
      ReadResult.failure 0 { cexS with cpx1_ILLADDR := true } ∧
    mem_write cexR cexS true ACCESS_CLASS.absolute 200000 5 =
      WriteResult.failure { cexS with cpx1_ILLADDR := true } :=
  C3_illegal_address cexR cexS true ACCESS_CLASS.absolute 200000 5
    (by decide) (by decide)

/-! ### Claim C4 -/

/-- Claim C4: for the data-checked and stack-checked classifications, on
read and on write, an access at offset exactly `DL` and at offset exactly
`SM + SR` is performed without trap; an access at `DL - 1` or `SM + SR + 1`
traps with a Bounds Violation when unprivileged and is performed when
privileged.  The segment registers are assumed well formed (`1 ≤ DL ≤ SM`,
so that "one unit below `DL`" exists and the bounds are ordered) and the
four formed addresses in range, as the claim presupposes. -/
theorem C4_checked_bounds (r : Regs) (s : State) (isCPU : Bool)
    (c : ACCESS_CLASS) (v : Nat)
    (hc : c = ACCESS_CLASS.data_checked ∨ c = ACCESS_CLASS.stack_checked)
    (hDL1 : 1 ≤ r.DL) (hDLSM : r.DL ≤ r.SM)
    (hr1 : (formParts r c r.DL).1 < r.MEMSIZE)
    (hr2 : (formParts r c (r.SM + r.SR)).1 < r.MEMSIZE)
    (hr3 : (formParts r c (r.DL - 1)).1 < r.MEMSIZE)
    (hr4 : (formParts r c (r.SM + r.SR + 1)).1 < r.MEMSIZE) :
    ((mem_read r s isCPU c r.DL).isSuccess = true ∧
     (mem_read r s isCPU c (r.SM + r.SR)).isSuccess = true ∧
     (mem_write r s isCPU c r.DL v).isSuccess = true ∧
     (mem_write r s isCPU c (r.SM + r.SR) v).isSuccess = true) ∧
    (r.PRIV = false →
     (mem_read r s isCPU c (r.DL - 1)).isTrap = true ∧
     (mem_read r s isCPU c (r.SM + r.SR + 1)).isTrap = true ∧
     (mem_write r s isCPU c (r.DL - 1) v).isTrap = true ∧
     (mem_write r s isCPU c (r.SM + r.SR + 1) v).isTrap = true) ∧
    (r.PRIV = true →
     (mem_read r s isCPU c (r.DL - 1)).isSuccess = true ∧
     (mem_read r s isCPU c (r.SM + r.SR + 1)).isSuccess = true ∧
     (mem_write r s isCPU c (r.DL - 1) v).isSuccess = true ∧
     (mem_write r s isCPU c (r.SM + r.SR + 1) v).isSuccess = true) := by
  rcases hc with hc | hc <;> subst hc <;>
    simp only [formParts, mem_access_bank, Regs.bankVal] at hr1 hr2 hr3 hr4 <;>
    refine ⟨⟨?_, ?_, ?_, ?_⟩, fun hp => ⟨?_, ?_, ?_, ?_⟩, fun hp => ⟨?_, ?_, ?_, ?_⟩⟩ <;>
    simp only [mem_read, mem_write, formParts, mem_access_bank, Regs.bankVal,
      ReadResult.isSuccess, ReadResult.isTrap, WriteResult.isSuccess,
      WriteResult.isTrap] <;>
    split_ifs <;> first | rfl | (try simp_all) <;> omega

/-- Register file for the checked-bounds witness: DL = 1, SM = 5, SR = 2,
all banks 0, unprivileged, 65536 words of memory. -/
def c4R : Regs :=
  { PBANK := 0, DBANK := 0, SBANK := 0, PB := 0, PL := 0, DL := 1,
    SM := 5, SR := 2, PRIV := false, MEMSIZE := 65536 }

/-- Claim C4 witness: the checked-bounds theorem applied to `data_checked`
with DL = 1, SM = 5, SR = 2 on an unprivileged processor. -/
theorem C4_witness :
    ((mem_read c4R cexS true ACCESS_CLASS.data_checked c4R.DL).isSuccess = true ∧
     (mem_read c4R cexS true ACCESS_CLASS.data_checked (c4R.SM + c4R.SR)).isSuccess = true ∧
     (mem_write c4R cexS true ACCESS_CLASS.data_checked c4R.DL 0).isSuccess = true ∧
     (mem_write c4R cexS true ACCESS_CLASS.data_checked (c4R.SM + c4R.SR) 0).isSuccess = true) ∧
    ((mem_read c4R cexS true ACCESS_CLASS.data_checked (c4R.DL - 1)).isTrap = true ∧
     (mem_read c4R cexS true ACCESS_CLASS.data_checked (c4R.SM + c4R.SR + 1)).isTrap = true ∧
     (mem_write c4R cexS true ACCESS_CLASS.data_checked (c4R.DL - 1) 0).isTrap = true ∧
     (mem_write c4R cexS true ACCESS_CLASS.data_checked (c4R.SM + c4R.SR + 1) 0).isTrap = true) := by
  have h := C4_checked_bounds c4R cexS true ACCESS_CLASS.data_checked 0
    (Or.inl rfl) (by decide) (by decide) (by decide) (by decide) (by decide) (by decide)
  exact ⟨h.1, h.2.1 rfl⟩

/-! ### Claim C5 -/

/-- Claim C5 counterexample: `fetch` is an unchecked classification, yet a
write through it fails (Address Parity Error) and leaves memory unchanged,
so writing 42 and reading back at in-range offset 5 yields the old memory
value 7 with the parity flag set, not the written 42 — the
write-then-read-returns-v property does not hold for every unchecked
classification. -/
theorem C5_counterexample :
    (mem_write cexR cexS true ACCESS_CLASS.fetch 5 42).isSuccess = false ∧
    (mem_write cexR cexS true ACCESS_CLASS.fetch 5 42).state.cpx1_ADDRPAR = true ∧
    mem_read cexR ((mem_write cexR cexS true ACCESS_CLASS.fetch 5 42).state) true
        ACCESS_CLASS.fetch 5 =
      ReadResult.success 7 ((mem_write cexR cexS true ACCESS_CLASS.fetch 5 42).state) ∧
    (7 : Nat) ≠ 42 := by
  refine ⟨by decide, by decide, ?_, by decide⟩
  have h : mem_write cexR cexS true ACCESS_CLASS.fetch 5 42 =
      WriteResult.failure { cexS with cpx1_ADDRPAR := true } := rfl
  rw [h]
  rfl

/-- Claim C5 as amended: for every in-range address and 16-bit value,
writing then reading with the same classification returns the written
value with success for the write-capable unchecked classifications — dma,
absolute, data, and the overlay-eligible absolute-overlay, data-overlay
and stack classes when the overlay window does not match — but not for the
write-illegal fetch/program classes the original claim also covered. -/
theorem C5_unchecked_round_trip (r : Regs) (s : State) (isCPU : Bool)
    (c : ACCESS_CLASS)
    (hc : c = ACCESS_CLASS.dma ∨ c = ACCESS_CLASS.absolute ∨ c = ACCESS_CLASS.data ∨
          c = ACCESS_CLASS.absolute_mapped ∨ c = ACCESS_CLASS.data_mapped ∨
          c = ACCESS_CLASS.stack)
    (offset v : Nat)
    (hv : v < 65536)
    (haddr : (formParts r c offset).1 < r.MEMSIZE)
    (hwin : ¬ (r.SM < (formParts r c offset).2.2 ∧
               (formParts r c offset).2.2 ≤ r.SM + r.SR ∧
               (formParts r c offset).2.1 = r.SBANK)) :
    ∃ s1, mem_write r s isCPU c offset v = WriteResult.success s1 ∧
      mem_read r s1 isCPU c offset = ReadResult.success v s1 := by
  rcases hc with hc | hc | hc | hc | hc | hc <;> subst hc <;>
    simp only [mem_write, mem_read, formParts, mem_access_bank, Regs.bankVal]
      at haddr hwin ⊢ <;>
    rw [if_neg (not_le.mpr haddr)] <;>
    [skip; skip; skip; rw [if_neg hwin]; rw [if_neg hwin]; rw [if_neg hwin]] <;>
    refine ⟨_, rfl, ?_⟩ <;>
    rw [if_neg (not_le.mpr haddr)] <;>
    [skip; skip; skip; rw [if_neg hwin]; rw [if_neg hwin]; rw [if_neg hwin]] <;>
    simp only [Function.update_same, Nat.mod_eq_of_lt hv]

/-- Claim C5 witness: a data-class write of 42 at offset 3 reads back 42
(DBANK = 0, so the physical address is 3, well inside memory). -/
theorem C5_witness :
    ∃ s1, mem_write cexR cexS true ACCESS_CLASS.data 3 42 = WriteResult.success s1 ∧
      mem_read cexR s1 true ACCESS_CLASS.data 3 = ReadResult.success 42 s1 :=
  C5_unchecked_round_trip cexR cexS true ACCESS_CLASS.data
    (Or.inr (Or.inr (Or.inl rfl))) 3 42 (by decide) (by decide) (by decide)

/-! ### Frame and counting lemmas for the byte accessor -/

/-- A successful `mem_read` leaves the machine state unchanged. -/
theorem mem_read_success_state (r : Regs) (s : State) (isCPU : Bool)
    (c : ACCESS_CLASS) (o v : Nat) (s1 : State)
    (h : mem_read r s isCPU c o = ReadResult.success v s1) : s1 = s := by
  unfold mem_read at h
  cases c <;> dsimp only at h <;> split_ifs at h <;>
    injection h with h1 h2 <;> exact h2.symm

/-- A successful `cpu_read_memory` leaves the machine state unchanged and
counts exactly one underlying word read. -/
theorem cpu_read_memory_counts (r : Regs) (cpu : CpuState) (c : ACCESS_CLASS)
    (o : Nat) (v : Nat) (cpu' : CpuState)
    (h : cpu_read_memory r cpu c o = some (v, cpu')) :
    cpu'.s = cpu.s ∧ cpu'.reads = cpu.reads + 1 ∧ cpu'.writes = cpu.writes := by
  unfold cpu_read_memory at h
  cases hm : mem_read r cpu.s true c o <;> rw [hm] at h
  case success v1 s1 =>
    injection h with h1
    injection h1 with hv hcpu
    rw [← hcpu]
    exact ⟨(mem_read_success_state r cpu.s true c o v1 s1 hm).symm ▸ rfl, rfl, rfl⟩
  case failure => exact absurd h (by simp)
  case trap => exact absurd h (by simp)

/-- A successful `cpu_write_memory` counts exactly one underlying word
write and no reads. -/
theorem cpu_write_memory_counts (r : Regs) (cpu : CpuState) (c : ACCESS_CLASS)
    (o v : Nat) (cpu' : CpuState)
    (h : cpu_write_memory r cpu c o v = some cpu') :
    cpu'.reads = cpu.reads ∧ cpu'.writes = cpu.writes + 1 := by
  unfold cpu_write_memory at h
  cases hm : mem_write r cpu.s true c o v <;> rw [hm] at h
  case success s1 =>
    injection h with h1
    rw [← h1]
    exact ⟨rfl, rfl⟩
  case failure => exact absurd h (by simp)
  case trap => exact absurd h (by simp)

/-- `mem_update_byte` touches only the occupancy flag, the buffered word
and the machine state: the bound variable, classification, access count,
word address and all extent fields are unchanged, and on return the
occupancy flag is clear. -/
theorem mem_update_byte_frame (r : Regs) (bs bs' : BS)
    (h : mem_update_byte r bs = some bs') :
    bs'.var = bs.var ∧ bs'.bap.cls = bs.bap.cls ∧
    bs'.bap.count = bs.bap.count ∧
    bs'.bap.word_address = bs.bap.word_address ∧
    bs'.bap.first_byte_address = bs.bap.first_byte_address ∧
    bs'.bap.first_byte_offset = bs.bap.first_byte_offset ∧
    bs'.bap.length = bs.bap.length ∧
    bs'.bap.initial_byte_address = bs.bap.initial_byte_address ∧
    bs'.bap.initial_byte_offset = bs.bap.initial_byte_offset ∧
    bs'.bap.initial_word_address = bs.bap.initial_word_address ∧
    bs'.bap.write_needed = false ∨
    bs' = bs ∧ bs.bap.write_needed = false := by
  unfold mem_update_byte at h
  by_cases hw : bs.bap.write_needed = true
  · rw [if_pos hw] at h
    cases hr : cpu_read_memory r bs.cpu bs.bap.cls bs.bap.word_address with
    | none => rw [hr] at h; exact absurd h (by simp)
    | some p =>
      rw [hr] at h
      obtain ⟨target, cpu1⟩ := p
      dsimp only at h
      cases hw2 : cpu_write_memory r cpu1 bs.bap.cls bs.bap.word_address
          (REPLACE_LOWER bs.bap.data_word target) with
      | none => rw [hw2] at h; exact absurd h (by simp)
      | some cpu2 =>
        rw [hw2] at h
        injection h with h1
        rw [← h1]
        exact Or.inl ⟨rfl, rfl, rfl, rfl, rfl, rfl, rfl, rfl, rfl, rfl, rfl⟩
  · rw [if_neg hw] at h
    injection h with h1
    exact Or.inr ⟨h1.symm, by revert hw; cases bs.bap.write_needed <;> simp⟩

/-- Writing one byte at an even offset is pure buffering: no word access. -/
theorem mem_write_byte_even (r : Regs) (bs : BS) (b : Nat)
    (heven : bs.var % 2 = 0) :
    mem_write_byte r bs b =
      some { bs with var := (bs.var + 1) % 65536,
                     bap := { bs.bap with
                        word_address := (bs.bap.word_address + 1) % 65536,
                        data_word := REPLACE_UPPER bs.bap.data_word b,
                        write_needed := true,
                        count := bs.bap.count + 1 } } := by
  unfold mem_write_byte
  rw [if_neg (show ¬ bs.var % 2 = 1 by omega)]

/-! ### Claim C7 -/

/-- Claim C7: writing two consecutive bytes through a byte accessor
starting at an even byte offset performs exactly one underlying word write
(and no reads): the even-offset byte is only buffered with the pending
flag set, and the paired odd-offset byte triggers the single combined
write. -/
theorem C7_write_coalescing (r : Regs) (bs bs1 bs2 : BS) (b1 b2 : Nat)
    (heven : bs.var % 2 = 0)
    (h1 : mem_write_byte r bs b1 = some bs1)
    (h2 : mem_write_byte r bs1 b2 = some bs2) :
    bs2.cpu.writes = bs.cpu.writes + 1 ∧ bs2.cpu.reads = bs.cpu.reads := by
  rw [mem_write_byte_even r bs b1 heven] at h1
  have heq := Option.some.inj h1
  have hvar : bs1.var = (bs.var + 1) % 65536 := by rw [← heq]
  have hcount : bs1.bap.count = bs.bap.count + 1 := by rw [← heq]
  have hcpu : bs1.cpu = bs.cpu := by rw [← heq]
  unfold mem_write_byte at h2
  rw [if_pos (show bs1.var % 2 = 1 by rw [hvar]; omega)] at h2
  rw [if_neg (show ¬ bs1.bap.count = 0 by rw [hcount]; omega)] at h2
  dsimp only at h2
  cases hw : cpu_write_memory r bs1.cpu bs1.bap.cls bs1.bap.word_address
      (REPLACE_LOWER bs1.bap.data_word b2) with
  | none => rw [hw] at h2; exact absurd h2 (by simp)
  | some cpu2 =>
    rw [hw] at h2
    injection h2 with h2
    have hc := cpu_write_memory_counts r bs1.cpu bs1.bap.cls bs1.bap.word_address
      (REPLACE_LOWER bs1.bap.data_word b2) cpu2 hw
    rw [← h2]
    refine ⟨?_, ?_⟩
    · show cpu2.writes = bs.cpu.writes + 1
      rw [hc.2, hcpu]
    · show cpu2.reads = bs.cpu.reads
      rw [hc.1, hcpu]

/-! ### Claim C8 -/

/-- Register file for the byte-accessor examples: data bank 0, stack bank 1
(so plain data accesses never hit the overlay), stack marker far away,
privileged, 65536 words of memory. -/
def bexR : Regs :=
  { PBANK := 0, DBANK := 0, SBANK := 1, PB := 0, PL := 0, DL := 0,
    SM := 1000, SR := 2, PRIV := true, MEMSIZE := 65536 }

/-- CPU state for the byte-accessor examples: all of memory zero, counters
cleared. -/
def bexC : CpuState :=
  { s := { M := fun _ => 0, TR := fun _ => 0,
           cpx1_ILLADDR := false, cpx1_ADDRPAR := false },
    reads := 0, writes := 0 }

/-- A concrete byte accessor positioned at word address 10 with buffered
word 258, bound to byte offset 21. -/
def c8BS : BS :=
  { cpu := bexC, var := 21,
    bap := { cls := ACCESS_CLASS.data, write_needed := false,
             first_byte_offset := 0, length := 0, count := 0,
             initial_byte_address := 0, initial_word_address := 0,
             first_byte_address := 0, word_address := 10, data_word := 258,
             initial_byte_offset := 0 } }

/-- Claim C8 counterexample: looking up index 4 from bound offset 21
computes word address 12, different from the accessor's current word
address 10, and the lookup then overwrites the accessor's word address
(and buffered word) with the looked-up word — so the claim that lookup
leaves the buffered word and word address unaffected is false. -/
theorem C8_counterexample :
    (mem_lookup_byte bexR c8BS 4).map (fun p => p.2.bap.word_address) = some 12 ∧
    c8BS.bap.word_address = 10 ∧ (12 : Nat) ≠ 10 := by
  exact ⟨by decide, by decide, by decide⟩

/-- Claim C8 as amended: `mem_lookup_byte` never moves the bound
byte-offset variable, the pending-write flag, the access count, the extent
fields, or the machine state, and performs an underlying word read only
when the word address computed from (bound offset + index) differs from
the accessor's current word address: on a hit it returns the appropriate
half of the cached word with the accessor completely unchanged and no
read; on a miss it performs exactly one word read and caches the new word
address (and word) in the accessor's buffering fields — clobbering them,
not leaving them unaffected as originally claimed. -/
theorem C8_lookup_frame (r : Regs) (bs : BS) (index b : Nat) (bs' : BS)
    (hrun : mem_lookup_byte r bs index = some (b, bs')) :
    bs'.var = bs.var ∧
    bs'.bap.write_needed = bs.bap.write_needed ∧
    bs'.bap.count = bs.bap.count ∧
    bs'.bap.cls = bs.bap.cls ∧
    bs'.bap.first_byte_address = bs.bap.first_byte_address ∧
    bs'.bap.first_byte_offset = bs.bap.first_byte_offset ∧
    bs'.bap.length = bs.bap.length ∧
    bs'.bap.initial_byte_address = bs.bap.initial_byte_address ∧
    bs'.bap.initial_byte_offset = bs.bap.initial_byte_offset ∧
    bs'.bap.initial_word_address = bs.bap.initial_word_address ∧
    bs'.cpu.s = bs.cpu.s ∧ bs'.cpu.writes = bs.cpu.writes ∧
    (cpu_byte_ea r bs.bap.cls ((bs.var + index) % 65536) 0 =
        some bs.bap.word_address →
      bs' = bs ∧
      b = (if (bs.var + index) % 65536 % 2 = 1
           then LOWER_BYTE bs.bap.data_word
           else UPPER_BYTE bs.bap.data_word)) ∧
    (∀ wa, cpu_byte_ea r bs.bap.cls ((bs.var + index) % 65536) 0 = some wa →
      wa ≠ bs.bap.word_address →
      bs'.bap.word_address = wa ∧ bs'.cpu.reads = bs.cpu.reads + 1) := by
  unfold mem_lookup_byte at hrun
  dsimp only at hrun
  cases hea : cpu_byte_ea r bs.bap.cls ((bs.var + index) % 65536) 0 with
  | none => rw [hea] at hrun; exact absurd hrun (by simp)
  | some wa =>
    rw [hea] at hrun
    dsimp only at hrun
    by_cases hwa : wa ≠ bs.bap.word_address
    · rw [if_pos hwa] at hrun
      cases hrd : cpu_read_memory r bs.cpu bs.bap.cls wa with
      | none => rw [hrd] at hrun; exact absurd hrun (by simp)
      | some p =>
        obtain ⟨dw, cpu1⟩ := p
        rw [hrd] at hrun
        dsimp only at hrun
        have hc := cpu_read_memory_counts r bs.cpu bs.bap.cls wa dw cpu1 hrd
        split_ifs at hrun <;>
          (injection hrun with hp1; injection hp1 with hb hbs) <;>
          rw [← hbs] <;>
          exact ⟨rfl, rfl, rfl, rfl, rfl, rfl, rfl, rfl, rfl, rfl, hc.1, hc.2.2,
                 fun hhit => absurd (Option.some.inj hhit) hwa,
                 fun wa' hmiss hne =>
                   (Option.some.inj hmiss) ▸ ⟨rfl, hc.2.1⟩⟩
    · rw [if_neg hwa] at hrun
      push_neg at hwa
      split_ifs at hrun <;>
        (injection hrun with hp1; injection hp1 with hb hbs) <;>
        rw [← hbs]
      case pos hpar =>
        refine ⟨rfl, rfl, rfl, rfl, rfl, rfl, rfl, rfl, rfl, rfl, rfl, rfl,
                fun _ => ⟨rfl, ?_⟩,
                fun wa' hmiss hne => absurd ((Option.some.inj hmiss) ▸ hwa) hne⟩
        rw [if_pos hpar, hb]
      case neg hpar =>
        refine ⟨rfl, rfl, rfl, rfl, rfl, rfl, rfl, rfl, rfl, rfl, rfl, rfl,
                fun _ => ⟨rfl, ?_⟩,
                fun wa' hmiss hne => absurd ((Option.some.inj hmiss) ▸ hwa) hne⟩
        rw [if_neg hpar, hb]

/-- Claim C8 witness: the lookup-frame theorem applied to a concrete hit
(index 0 from offset 21 computes word address 10, matching the accessor),
which returns the lower byte 2 of the cached word 258 with the accessor
unchanged. -/
theorem C8_witness :
    mem_lookup_byte bexR c8BS 0 = some (2, c8BS) ∧ c8BS.var = c8BS.var :=
  ⟨rfl, (C8_lookup_frame bexR c8BS 0 2 c8BS rfl).1⟩

/-! ### Claim C9 -/

/-- Concrete run for the extent-tracking counterexample: initialize an
accessor at byte offset 10, write two bytes (11 and 12), reposition the
bound variable to the lower byte offset 4 and call set; report the tracked
extent (first byte address, first byte offset, maximum length). -/
def c9chain : Option (Nat × Nat × Nat) :=
  match mem_init_byte bexR bexC ACCESS_CLASS.data_checked 10 0 with
  | none => none
  | some bs0 =>
  match writeBytes bexR bs0 [11, 12] with
  | none => none
  | some bs1 =>
  match mem_set_byte bexR { bs1 with var := 4 } with
  | none => none
  | some bs2 => some (bs2.bap.first_byte_address, bs2.bap.first_byte_offset, bs2.bap.length)

/-- Claim C9 counterexample: after repositioning the accessor from byte
offset 10 (two bytes accessed, extent lower bound at byte address 10) down
to byte offset 4 (byte address 4), the positioning call leaves the tracked
lower bound at 10 and the length at 2 — the extent is not widened to
include the new lower bound 4 at the repositioning call (it would only be
merged at the NEXT positioning call, and only if bytes are accessed at the
lower position). -/
theorem C9_counterexample :
    c9chain = some (10, 10, 2) ∧ ¬ ((10 : Nat) ≤ 4) :=
  ⟨by decide, by decide⟩

/-- Claim C9 as amended: the extent-widening happens at the positioning
call FOLLOWING accesses at a repositioned offset, merging the span accessed
since the previous positioning: when bytes were accessed (count > 0, not an
initialization call) and the previous positioning was below the tracked
lower bound, that positioning's byte address becomes the new first byte
address/offset and the length grows by the distance (at least to the
count); when the previous positioning was at or above the lower bound, the
lower bound never moves and only the maximum length grows to cover the
accessed span.  In both cases the access count is cleared. -/
theorem C9_extent_merge (r : Regs) (bs bs' : BS)
    (hrun : mem_set_byte r bs = some bs')
    (hacc : 0 < bs.bap.count) (hinit : 0 < bs.bap.initial_byte_address) :
    bs'.bap.count = 0 ∧
    (bs.bap.initial_byte_address < bs.bap.first_byte_address →
       bs'.bap.first_byte_address = bs.bap.initial_byte_address ∧
       bs'.bap.first_byte_offset = bs.bap.initial_byte_offset ∧
       bs'.bap.length =
         max (bs.bap.length + bs.bap.first_byte_address - bs.bap.initial_byte_address)
             bs.bap.count) ∧
    (bs.bap.first_byte_address ≤ bs.bap.initial_byte_address →
       bs'.bap.first_byte_address = bs.bap.first_byte_address ∧
       bs'.bap.first_byte_offset = bs.bap.first_byte_offset ∧
       bs'.bap.length =
         max bs.bap.length
             (bs.bap.count + bs.bap.initial_byte_address - bs.bap.first_byte_address)) := by
  unfold mem_set_byte at hrun
  cases hupd : mem_update_byte r bs with
  | none => rw [hupd] at hrun; exact absurd hrun (by simp)
  | some bsu =>
  rw [hupd] at hrun
  dsimp only at hrun
  have hfr := mem_update_byte_frame r bs bsu hupd
  have hco : bsu.bap.count = bs.bap.count := by
    rcases hfr with ⟨_, _, h, _⟩ | ⟨heq, _⟩
    · exact h
    · rw [heq]
  have hia : bsu.bap.initial_byte_address = bs.bap.initial_byte_address := by
    rcases hfr with ⟨_, _, _, _, _, _, _, h, _⟩ | ⟨heq, _⟩
    · exact h
    · rw [heq]
  have hfa : bsu.bap.first_byte_address = bs.bap.first_byte_address := by
    rcases hfr with ⟨_, _, _, _, h, _⟩ | ⟨heq, _⟩
    · exact h
    · rw [heq]
  have hfo : bsu.bap.first_byte_offset = bs.bap.first_byte_offset := by
    rcases hfr with ⟨_, _, _, _, _, h, _⟩ | ⟨heq, _⟩
    · exact h
    · rw [heq]
  have hle : bsu.bap.length = bs.bap.length := by
    rcases hfr with ⟨_, _, _, _, _, _, h, _⟩ | ⟨heq, _⟩
    · exact h
    · rw [heq]
  have hio : bsu.bap.initial_byte_offset = bs.bap.initial_byte_offset := by
    rcases hfr with ⟨_, _, _, _, _, _, _, _, h, _⟩ | ⟨heq, _⟩
    · exact h
    · rw [heq]
  rw [hco, hia, hfa, hfo, hle, hio] at hrun
  rw [if_pos (show 0 < bs.bap.count ∧ 0 < bs.bap.initial_byte_address
        from ⟨hacc, hinit⟩)] at hrun
  by_cases hlt : bs.bap.initial_byte_address < bs.bap.first_byte_address
  · rw [if_pos hlt] at hrun
    dsimp only at hrun
    split at hrun
    · exact absurd hrun (by simp)
    · split_ifs at hrun <;>
        (injection hrun with hbs) <;> rw [← hbs] <;>
        refine ⟨rfl, fun _ => ⟨rfl, rfl, ?_⟩, fun hge => absurd hlt (by omega)⟩ <;>
        dsimp only <;> omega
  · rw [if_neg hlt] at hrun
    dsimp only at hrun
    split at hrun
    · exact absurd hrun (by simp)
    · split_ifs at hrun <;>
        (injection hrun with hbs) <;> rw [← hbs] <;>
        refine ⟨rfl, fun hl => absurd hl hlt, fun _ => ⟨rfl, rfl, ?_⟩⟩ <;>
        dsimp only <;> omega

/-- A concrete accessor for the extent-merge witness: two bytes were
accessed starting from a positioning at byte address 4, below the tracked
lower bound 10. -/
def c9BS : BS :=
  { cpu := bexC, var := 8,
    bap := { cls := ACCESS_CLASS.data, write_needed := false,
             first_byte_offset := 77, length := 5, count := 2,
             initial_byte_address := 4, initial_word_address := 3,
             first_byte_address := 10, word_address := 3, data_word := 0,
             initial_byte_offset := 70 } }

/-- Claim C7 witness: the coalescing theorem applied to the concrete
accessor `c9BS` (bound offset 8, even): writing bytes 5 then 6 performs
exactly one underlying word write and no reads. -/
theorem C7_witness :
    ∃ bs1 bs2, mem_write_byte bexR c9BS 5 = some bs1 ∧
      mem_write_byte bexR bs1 6 = some bs2 ∧
      bs2.cpu.writes = c9BS.cpu.writes + 1 ∧ bs2.cpu.reads = c9BS.cpu.reads :=
  ⟨_, _, rfl, rfl,
   (C7_write_coalescing bexR c9BS _ _ 5 6 (by decide) rfl rfl).1,
   (C7_write_coalescing bexR c9BS _ _ 5 6 (by decide) rfl rfl).2⟩

/-- Claim C9 witness: the extent-merge theorem applied to a concrete
accessor whose previous positioning (byte address 4) lies below the
tracked lower bound (10): the merge lowers the bound to 4, takes the
offset 70 of that positioning, and extends the length to 11. -/
theorem C9_witness :
    ∃ bs', mem_set_byte bexR c9BS = some bs' ∧
      bs'.bap.count = 0 ∧
      bs'.bap.first_byte_address = 4 ∧ bs'.bap.first_byte_offset = 70 ∧
      bs'.bap.length = 11 := by
  refine ⟨_, rfl, ?_⟩
  have h := C9_extent_merge bexR c9BS _ rfl (by decide) (by decide)
  obtain ⟨h1, h2, h3⟩ := h
  obtain ⟨ha, hb, hc⟩ := h2 (by decide)
  exact ⟨h1, ha, hb, by rw [hc]; decide⟩

/-! ### Claim C10 -/

/-- Concrete run for the reset counterexample: initialize an accessor at
byte offset 5, reposition the bound variable to 9 and call set, then
rewind with reset; report the restored byte-offset variable. -/
def c10chain : Option Nat :=
  match mem_init_byte bexR bexC ACCESS_CLASS.data_checked 5 0 with
  | none => none
  | some bs0 =>
  match mem_set_byte bexR { bs0 with var := 9 } with
  | none => none
  | some bs1 =>
  match mem_reset_byte bexR bs1 with
  | none => none
  | some bs2 => some bs2.var

/-- Claim C10 counterexample: after initializing at byte offset 5 and then
repositioning to 9, the rewind restores the byte-offset variable to 9 (the
value captured by the most recent positioning), not to its
initialization-time value 5 — so the claim that reset restores the
variable to its initialization-time value is false once a repositioning
has intervened. -/
theorem C10_counterexample :
    c10chain = some 9 ∧ (9 : Nat) ≠ 5 :=
  ⟨by decide, by decide⟩

/-- Claim C10 as amended: `mem_reset_byte` flushes any pending buffered
write, restores the byte-offset variable to the value captured at the most
recent positioning call (which equals the initialization-time value only
when no repositioning has intervened) and the word address to its
initialization-time value, and clears the access count to zero without
merging it into the extent bookkeeping — the tracked extent fields (first
byte address, first byte offset, maximum length) are exactly unchanged, so
bytes accessed since the last positioning are never reflected in the
extent. -/
theorem C10_reset_effects (r : Regs) (bs bs' : BS)
    (hrun : mem_reset_byte r bs = some bs') :
    bs'.var = bs.bap.initial_byte_offset ∧
    bs'.bap.word_address = bs.bap.initial_word_address ∧
    bs'.bap.count = 0 ∧
    bs'.bap.write_needed = false ∧
    bs'.bap.first_byte_address = bs.bap.first_byte_address ∧
    bs'.bap.first_byte_offset = bs.bap.first_byte_offset ∧
    bs'.bap.length = bs.bap.length ∧
    bs'.bap.initial_byte_offset = bs.bap.initial_byte_offset ∧
    bs'.bap.initial_word_address = bs.bap.initial_word_address := by
  unfold mem_reset_byte at hrun
  cases hupd : mem_update_byte r bs with
  | none => rw [hupd] at hrun; exact absurd hrun (by simp)
  | some bsu =>
  rw [hupd] at hrun
  injection hrun with hbs
  rw [← hbs]
  have hfr := mem_update_byte_frame r bs bsu hupd
  rcases hfr with ⟨h1, h2, h3, h4, h5, h6, h7, h8, h9, h10, h11⟩ | ⟨heq, hwn⟩
  · exact ⟨h9, h10, rfl, h11, h5, h6, h7, h9, h10⟩
  · rw [heq]
    exact ⟨rfl, rfl, rfl, hwn, rfl, rfl, rfl, rfl, rfl⟩

/-- Claim C10 witness: the reset-effects theorem applied to the concrete
accessor `c9BS` (count 2, extent fields 10/77/5, last positioning at
offset 70): reset restores the variable to 70, clears the count, and
leaves the extent fields 10/77/5 untouched. -/
theorem C10_witness :
    ∃ bs', mem_reset_byte bexR c9BS = some bs' ∧
      bs'.var = 70 ∧ bs'.bap.count = 0 ∧
      bs'.bap.first_byte_address = 10 ∧ bs'.bap.first_byte_offset = 77 ∧
      bs'.bap.length = 5 := by
  refine ⟨_, rfl, ?_⟩
  have h := C10_reset_effects bexR c9BS _ rfl
  exact ⟨h.1, h.2.2.1, h.2.2.2.2.1, h.2.2.2.2.2.1, h.2.2.2.2.2.2.1⟩

/-! ### Claim C6: infrastructure

The round-trip theorem is proved for a byte accessor initialized with the
`data_checked` classification (so the stored classification used by the
byte reads and writes is the unchecked `data` class).  The hypotheses make
the whole data bank resident: every word offset forms an in-range address.
-/

/-- The physical address of word offset `w` in the data bank. -/
def dataAddr (r : Regs) (w : Nat) : Nat := r.DBANK <<< 16 ||| w

/-- The byte stored at byte position `j` of the data bank: the upper half
of word `j / 2` when `j` is even, its lower half when odd. -/
def halfAt (r : Regs) (M : Nat → Nat) (j : Nat) : Nat :=
  if j % 2 = 0 then UPPER_BYTE (M (dataAddr r (j / 2)))
  else LOWER_BYTE (M (dataAddr r (j / 2)))

/-- Distinct 16-bit word offsets form distinct data-bank addresses. -/
theorem dataAddr_ne (r : Regs) (w1 w2 : Nat) (h1 : w1 < 65536) (h2 : w2 < 65536)
    (hne : w1 ≠ w2) : dataAddr r w1 ≠ dataAddr r w2 := by
  intro h
  exact hne (bank_lor_inj r.DBANK w1 w2 h1 h2 h)

/-- A data-class word read through the CPU helper returns the memory word
at the data-bank address, counting one read. -/
theorem cpu_read_data (r : Regs) (cpu : CpuState) (w : Nat) (hw : w < 65536)
    (hrange : ∀ w', w' < 65536 → (r.DBANK <<< 16 ||| w') < r.MEMSIZE) :
    cpu_read_memory r cpu ACCESS_CLASS.data w =
      some (cpu.s.M (dataAddr r w),
            { s := cpu.s, reads := cpu.reads + 1, writes := cpu.writes }) := by
  unfold cpu_read_memory mem_read
  dsimp only [formParts, mem_access_bank, Regs.bankVal]
  rw [if_neg (not_le.mpr (hrange w hw))]
  rfl

/-- A data-class word write through the CPU helper stores the 16-bit
masked value at the data-bank address, counting one write. -/
theorem cpu_write_data (r : Regs) (cpu : CpuState) (w v : Nat) (hw : w < 65536)
    (hrange : ∀ w', w' < 65536 → (r.DBANK <<< 16 ||| w') < r.MEMSIZE) :
    cpu_write_memory r cpu ACCESS_CLASS.data w v =
      some { s := { cpu.s with M := Function.update cpu.s.M (dataAddr r w) (v % 65536) },
             reads := cpu.reads, writes := cpu.writes + 1 } := by
  unfold cpu_write_memory mem_write
  dsimp only [formParts, mem_access_bank, Regs.bankVal]
  rw [if_neg (not_le.mpr (hrange w hw))]
  rfl

/-- The first `t` bytes written starting at byte offset `k` are present in
memory `M`. -/
def flushedTo (r : Regs) (M : Nat → Nat) (k : Nat) (bytes : List Nat) (t : Nat) : Prop :=
  ∀ j, j < t → halfAt r M (k + j) = bytes.getD j 0 % 256

/-- The write-phase invariant of the byte accessor after `i` of the bytes
have been written sequentially starting at byte offset `k`: the cursor
fields track the position, and, depending on the parity of the next byte
position, either everything written is flushed (next byte even: the word
address is biased one word back and nothing is pending) or the final
even-position byte sits buffered in the upper half of the data word (next
byte odd). -/
def WInv (r : Regs) (k : Nat) (bytes : List Nat) (i : Nat) (bs : BS) : Prop :=
  bs.bap.cls = ACCESS_CLASS.data ∧
  bs.var = k + i ∧
  bs.bap.count = i ∧
  bs.bap.initial_byte_offset = k ∧
  bs.bap.initial_word_address =
    (if k % 2 = 0 then (k / 2 + 65535) % 65536 else k / 2) ∧
  ((k + i) % 2 = 0 →
    bs.bap.word_address = ((k + i) / 2 + 65535) % 65536 ∧
    bs.bap.write_needed = false ∧
    flushedTo r bs.cpu.s.M k bytes i) ∧
  ((k + i) % 2 = 1 →
    bs.bap.word_address = (k + i) / 2 ∧
    (i = 0 → bs.bap.write_needed = false) ∧
    (0 < i →
      bs.bap.write_needed = true ∧
      bs.bap.data_word / 256 = bytes.getD (i - 1) 0 % 256 ∧
      bs.bap.data_word < 65536 ∧
      flushedTo r bs.cpu.s.M k bytes (i - 1)))

/-- The read-phase invariant after `i` bytes have been read back, over the
fixed final memory `Mf`: position fields track the cursor, nothing is
pending, memory is unchanged, and when the next byte position is odd the
cached data word holds the containing memory word. -/
def RInv (r : Regs) (k : Nat) (Mf : Nat → Nat) (i : Nat) (bs : BS) : Prop :=
  bs.bap.cls = ACCESS_CLASS.data ∧
  bs.var = k + i ∧
  bs.bap.count = i ∧
  bs.bap.write_needed = false ∧
  bs.cpu.s.M = Mf ∧
  ((k + i) % 2 = 0 →
    bs.bap.word_address = ((k + i) / 2 + 65535) % 65536) ∧
  ((k + i) % 2 = 1 →
    bs.bap.word_address = (k + i) / 2 ∧
    (0 < i → bs.bap.data_word = Mf (dataAddr r ((k + i) / 2))))

/-- Shape of `mem_write_byte` at an odd offset on the very first access:
the containing word is read, the lower byte spliced, and the word written
through. -/
theorem mem_write_byte_odd_first (r : Regs) (bs : BS) (b : Nat)
    (hodd : bs.var % 2 = 1) (hcnt : bs.bap.count = 0)
    (v : Nat) (cpu1 : CpuState)
    (hrd : cpu_read_memory r bs.cpu bs.bap.cls bs.bap.word_address = some (v, cpu1))
    (cpu2 : CpuState)
    (hwr : cpu_write_memory r cpu1 bs.bap.cls bs.bap.word_address
             (REPLACE_LOWER v b) = some cpu2) :
    mem_write_byte r bs b =
      some { bs with cpu := cpu2, var := (bs.var + 1) % 65536,
                     bap := { bs.bap with
                              data_word := REPLACE_LOWER v b,
                              write_needed := false,
                              count := bs.bap.count + 1 } } := by
  unfold mem_write_byte
  rw [if_pos hodd, if_pos hcnt, hrd]
  dsimp only
  rw [hwr]

/-- Shape of `mem_write_byte` at an odd offset after the first access: the
buffered word receives the lower byte and is written through without a
read. -/
theorem mem_write_byte_odd_next (r : Regs) (bs : BS) (b : Nat)
    (hodd : bs.var % 2 = 1) (hcnt : ¬ bs.bap.count = 0)
    (cpu2 : CpuState)
    (hwr : cpu_write_memory r bs.cpu bs.bap.cls bs.bap.word_address
             (REPLACE_LOWER bs.bap.data_word b) = some cpu2) :
    mem_write_byte r bs b =
      some { bs with cpu := cpu2, var := (bs.var + 1) % 65536,
                     bap := { bs.bap with
                              data_word := REPLACE_LOWER bs.bap.data_word b,
                              write_needed := false,
                              count := bs.bap.count + 1 } } := by
  unfold mem_write_byte
  rw [if_pos hodd, if_neg hcnt]
  dsimp only
  rw [hwr]

/-- Shape of `mem_read_byte` at an odd offset on the very first access. -/
theorem mem_read_byte_odd_first (r : Regs) (bs : BS)
    (hodd : bs.var % 2 = 1) (hcnt : bs.bap.count = 0)
    (v : Nat) (cpu1 : CpuState)
    (hrd : cpu_read_memory r bs.cpu bs.bap.cls bs.bap.word_address = some (v, cpu1)) :
    mem_read_byte r bs =
      some (LOWER_BYTE v,
            { bs with cpu := cpu1, var := (bs.var + 1) % 65536,
                      bap := { bs.bap with
                               data_word := v,
                               count := bs.bap.count + 1 } }) := by
  unfold mem_read_byte
  rw [if_pos hodd, if_pos hcnt, hrd]

/-- Shape of `mem_read_byte` at an odd offset after the first access: the
lower half of the cached word is returned with no memory access. -/
theorem mem_read_byte_odd_next (r : Regs) (bs : BS)
    (hodd : bs.var % 2 = 1) (hcnt : ¬ bs.bap.count = 0) :
    mem_read_byte r bs =
      some (LOWER_BYTE bs.bap.data_word,
            { bs with var := (bs.var + 1) % 65536,
                      bap := { bs.bap with count := bs.bap.count + 1 } }) := by
  unfold mem_read_byte
  rw [if_pos hodd, if_neg hcnt]

/-- Shape of `mem_read_byte` at an even offset with no pending write: the
word address advances and the new word's upper half is returned. -/
theorem mem_read_byte_even (r : Regs) (bs : BS)
    (heven : ¬ bs.var % 2 = 1) (hwn : bs.bap.write_needed = false)
    (v : Nat) (cpu1 : CpuState)
    (hrd : cpu_read_memory r bs.cpu bs.bap.cls ((bs.bap.word_address + 1) % 65536) =
             some (v, cpu1)) :
    mem_read_byte r bs =
      some (UPPER_BYTE v,
            { bs with cpu := cpu1, var := (bs.var + 1) % 65536,
                      bap := { bs.bap with
                               word_address := (bs.bap.word_address + 1) % 65536,
                               data_word := v,
                               count := bs.bap.count + 1 } }) := by
  unfold mem_read_byte
  rw [if_neg heven, if_neg (by rw [hwn]; exact Bool.false_ne_true)]
  dsimp only
  rw [hrd]

/-- Updating a word that none of the first `t` flushed bytes inhabit
preserves the flushed property. -/
theorem flushedTo_update (r : Regs) (M : Nat → Nat) (k : Nat) (bytes : List Nat)
    (t : Nat) (hfl : flushedTo r M k bytes t)
    (w x : Nat) (hww : w < 65536) (hkt : k + t < 65536)
    (hw : ∀ j, j < t → (k + j) / 2 ≠ w) :
    flushedTo r (Function.update M (dataAddr r w) x) k bytes t := by
  intro j hj
  have hne := dataAddr_ne r ((k + j) / 2) w (by omega) hww (hw j hj)
  have hMeq : Function.update M (dataAddr r w) x (dataAddr r ((k + j) / 2)) =
      M (dataAddr r ((k + j) / 2)) := Function.update_noteq hne x M
  unfold halfAt
  rw [hMeq]
  exact hfl j hj

/-- One sequential byte write preserves the write-phase invariant. -/
theorem write_step (r : Regs) (k : Nat) (bytes : List Nat) (i : Nat) (bs : BS)
    (hrange : ∀ w', w' < 65536 → (r.DBANK <<< 16 ||| w') < r.MEMSIZE)
    (hk : k + bytes.length < 65536)
    (hi : i < bytes.length)
    (hInv : WInv r k bytes i bs) :
    ∃ bs1, mem_write_byte r bs (bytes.getD i 0) = some bs1 ∧
      WInv r k bytes (i + 1) bs1 := by
  obtain ⟨hcls, hvar, hcount, hio, hiw, hEv, hOd⟩ := hInv
  by_cases hm : (k + i) % 2 = 0
  · -- even position: pure buffering
    obtain ⟨hwa, hwn, hfl⟩ := hEv hm
    refine ⟨_, mem_write_byte_even r bs (bytes.getD i 0) (by rw [hvar]; exact hm), ?_⟩
    refine ⟨hcls, ?_, ?_, hio, hiw, fun h => absurd h (by omega), fun _ => ?_⟩
    · show (bs.var + 1) % 65536 = k + (i + 1)
      rw [hvar]; omega
    · show bs.bap.count + 1 = i + 1
      rw [hcount]
    · refine ⟨?_, fun h0 => absurd h0 (by omega), fun _ => ⟨rfl, ?_, ?_, ?_⟩⟩
      · show (bs.bap.word_address + 1) % 65536 = (k + (i + 1)) / 2
        rw [hwa]; omega
      · show REPLACE_UPPER bs.bap.data_word (bytes.getD i 0) / 256 =
            bytes.getD i 0 % 256
        unfold REPLACE_UPPER; omega
      · show REPLACE_UPPER bs.bap.data_word (bytes.getD i 0) < 65536
        unfold REPLACE_UPPER; omega
      · show flushedTo r bs.cpu.s.M k bytes i
        exact hfl
  · -- odd position: write through
    have hm1 : (k + i) % 2 = 1 := by omega
    obtain ⟨hwa, hwn0, hposs⟩ := hOd hm1
    have hvo : bs.var % 2 = 1 := by rw [hvar]; exact hm1
    have hwlt : (k + i) / 2 < 65536 := by omega
    by_cases hi0 : i = 0
    · -- very first access: read, splice lower, write through
      subst hi0
      have hrd : cpu_read_memory r bs.cpu bs.bap.cls bs.bap.word_address =
          some (bs.cpu.s.M (dataAddr r ((k + 0) / 2)),
                { s := bs.cpu.s, reads := bs.cpu.reads + 1, writes := bs.cpu.writes }) := by
        rw [hcls, hwa]
        exact cpu_read_data r bs.cpu ((k + 0) / 2) hwlt hrange
      have hwr : cpu_write_memory r
          { s := bs.cpu.s, reads := bs.cpu.reads + 1, writes := bs.cpu.writes }
          bs.bap.cls bs.bap.word_address
          (REPLACE_LOWER (bs.cpu.s.M (dataAddr r ((k + 0) / 2))) (bytes.getD 0 0)) =
          some { s := { bs.cpu.s with
                        M := Function.update bs.cpu.s.M (dataAddr r ((k + 0) / 2))
                          (REPLACE_LOWER (bs.cpu.s.M (dataAddr r ((k + 0) / 2)))
                            (bytes.getD 0 0) % 65536) },
                 reads := bs.cpu.reads + 1, writes := bs.cpu.writes + 1 } := by
        rw [hcls, hwa]
        exact cpu_write_data r _ ((k + 0) / 2) _ hwlt hrange
      refine ⟨_, mem_write_byte_odd_first r bs (bytes.getD 0 0) hvo hcount _ _ hrd _ hwr, ?_⟩
      refine ⟨hcls, ?_, ?_, hio, hiw, fun _ => ⟨?_, rfl, ?_⟩, fun h => absurd h (by omega)⟩
      · show (bs.var + 1) % 65536 = k + (0 + 1)
        rw [hvar]; omega
      · show bs.bap.count + 1 = 0 + 1
        rw [hcount]
      · show bs.bap.word_address = ((k + (0 + 1)) / 2 + 65535) % 65536
        rw [hwa]; omega
      · intro j hj
        have hj0 : j = 0 := by omega
        subst hj0
        show halfAt r (Function.update bs.cpu.s.M (dataAddr r ((k + 0) / 2))
              (REPLACE_LOWER (bs.cpu.s.M (dataAddr r ((k + 0) / 2)))
                (bytes.getD 0 0) % 65536)) (k + 0) = bytes.getD 0 0 % 256
        unfold halfAt
        rw [if_neg (show ¬ (k + 0) % 2 = 0 by omega), Function.update_same]
        unfold LOWER_BYTE REPLACE_LOWER
        omega
    · -- later odd access: splice the buffered upper half, write through
      obtain ⟨hwn, hdw, hdwlt, hfl⟩ := hposs (Nat.pos_of_ne_zero hi0)
      have hcnt : ¬ bs.bap.count = 0 := by rw [hcount]; exact hi0
      have hwr : cpu_write_memory r bs.cpu bs.bap.cls bs.bap.word_address
          (REPLACE_LOWER bs.bap.data_word (bytes.getD i 0)) =
          some { s := { bs.cpu.s with
                        M := Function.update bs.cpu.s.M (dataAddr r ((k + i) / 2))
                          (REPLACE_LOWER bs.bap.data_word (bytes.getD i 0) % 65536) },
                 reads := bs.cpu.reads, writes := bs.cpu.writes + 1 } := by
        rw [hcls, hwa]
        exact cpu_write_data r _ ((k + i) / 2) _ hwlt hrange
      refine ⟨_, mem_write_byte_odd_next r bs (bytes.getD i 0) hvo hcnt _ hwr, ?_⟩
      refine ⟨hcls, ?_, ?_, hio, hiw, fun _ => ⟨?_, rfl, ?_⟩, fun h => absurd h (by omega)⟩
      · show (bs.var + 1) % 65536 = k + (i + 1)
        rw [hvar]; omega
      · show bs.bap.count + 1 = i + 1
        rw [hcount]
      · show bs.bap.word_address = ((k + (i + 1)) / 2 + 65535) % 65536
        rw [hwa]; omega
      · intro j hj
        show halfAt r (Function.update bs.cpu.s.M (dataAddr r ((k + i) / 2))
              (REPLACE_LOWER bs.bap.data_word (bytes.getD i 0) % 65536)) (k + j) =
            bytes.getD j 0 % 256
        by_cases hji : j = i
        · subst hji
          unfold halfAt
          rw [if_neg (show ¬ (k + j) % 2 = 0 by omega), Function.update_same]
          unfold LOWER_BYTE REPLACE_LOWER
          omega
        · by_cases hji1 : j = i - 1
          · subst hji1
            unfold halfAt
            have hdiv : (k + (i - 1)) / 2 = (k + i) / 2 := by omega
            rw [if_pos (show (k + (i - 1)) % 2 = 0 by omega), hdiv, Function.update_same]
            unfold UPPER_BYTE REPLACE_LOWER
            omega
          · have hne := dataAddr_ne r ((k + j) / 2) ((k + i) / 2)
              (by omega) (by omega) (by omega)
            unfold halfAt
            rw [Function.update_noteq hne]
            exact hfl j (by omega)

/-- Dropping `i` elements and finding `b` at the head identifies the
`i`-th element. -/
theorem getD_of_drop (bytes l : List Nat) (b : Nat) (i : Nat)
    (hdrop : bytes.drop i = b :: l) : bytes.getD i 0 = b := by
  have h1 : bytes[i]? = some b := by
    have h0 : (bytes.drop i)[0]? = some b := by rw [hdrop]; simp
    rw [List.getElem?_drop] at h0
    simpa using h0
  rw [List.getD_eq_getElem?_getD, h1]
  rfl

/-- Writing a whole byte list preserves the invariant through to the end. -/
theorem writeBytes_inv (r : Regs) (k : Nat) (bytes : List Nat)
    (hrange : ∀ w', w' < 65536 → (r.DBANK <<< 16 ||| w') < r.MEMSIZE)
    (hk : k + bytes.length < 65536) :
    ∀ (l : List Nat) (i : Nat) (bs : BS),
      bytes.drop i = l → i + l.length = bytes.length →
      WInv r k bytes i bs →
      ∃ bs1, writeBytes r bs l = some bs1 ∧ WInv r k bytes bytes.length bs1 := by
  intro l
  induction l with
  | nil =>
    intro i bs hdrop hlen hInv
    have hi : i = bytes.length := by simpa using hlen
    subst hi
    exact ⟨bs, rfl, hInv⟩
  | cons b l ih =>
    intro i bs hdrop hlen hInv
    have hi : i < bytes.length := by
      simp only [List.length_cons] at hlen
      omega
    have hb : bytes.getD i 0 = b := getD_of_drop bytes l b i hdrop
    obtain ⟨bs1, hw, hInv1⟩ := write_step r k bytes i bs hrange hk hi hInv
    have hdrop1 : bytes.drop (i + 1) = l := by
      rw [← List.tail_drop, hdrop]
      rfl
    obtain ⟨bs2, hws, hInv2⟩ := ih (i + 1) bs1 hdrop1 (by
      simp only [List.length_cons] at hlen
      omega) hInv1
    refine ⟨bs2, ?_, hInv2⟩
    rw [hb] at hw
    unfold writeBytes
    rw [hw]
    exact hws

/-- The write terminator: after all bytes are written, `mem_update_byte`
flushes any pending final byte, leaving every written byte visible in
memory and the cursor bookkeeping intact. -/
theorem update_after_writes (r : Regs) (k : Nat) (bytes : List Nat) (bs : BS)
    (hrange : ∀ w', w' < 65536 → (r.DBANK <<< 16 ||| w') < r.MEMSIZE)
    (hk : k + bytes.length < 65536)
    (hInv : WInv r k bytes bytes.length bs) :
    ∃ bs2, mem_update_byte r bs = some bs2 ∧
      bs2.bap.cls = ACCESS_CLASS.data ∧
      bs2.var = k + bytes.length ∧
      bs2.bap.count = bytes.length ∧
      bs2.bap.initial_byte_offset = k ∧
      bs2.bap.initial_word_address =
        (if k % 2 = 0 then (k / 2 + 65535) % 65536 else k / 2) ∧
      bs2.bap.write_needed = false ∧
      flushedTo r bs2.cpu.s.M k bytes bytes.length := by
  obtain ⟨hcls, hvar, hcount, hio, hiw, hEv, hOd⟩ := hInv
  by_cases hm : (k + bytes.length) % 2 = 0
  · obtain ⟨hwa, hwn, hfl⟩ := hEv hm
    refine ⟨bs, ?_, hcls, hvar, hcount, hio, hiw, hwn, hfl⟩
    unfold mem_update_byte
    rw [if_neg (by rw [hwn]; exact Bool.false_ne_true)]
  · have hm1 : (k + bytes.length) % 2 = 1 := by omega
    obtain ⟨hwa, hwn0, hposs⟩ := hOd hm1
    by_cases hn0 : bytes.length = 0
    · have hwn := hwn0 hn0
      refine ⟨bs, ?_, hcls, hvar, hcount, hio, hiw, hwn, fun j hj => absurd hj (by omega)⟩
      unfold mem_update_byte
      rw [if_neg (by rw [hwn]; exact Bool.false_ne_true)]
    · obtain ⟨hwn, hdw, hdwlt, hfl⟩ := hposs (Nat.pos_of_ne_zero hn0)
      have hwlt : (k + bytes.length) / 2 < 65536 := by omega
      have hrd : cpu_read_memory r bs.cpu bs.bap.cls bs.bap.word_address =
          some (bs.cpu.s.M (dataAddr r ((k + bytes.length) / 2)),
                { s := bs.cpu.s, reads := bs.cpu.reads + 1, writes := bs.cpu.writes }) := by
        rw [hcls, hwa]
        exact cpu_read_data r bs.cpu ((k + bytes.length) / 2) hwlt hrange
      have hwr : cpu_write_memory r
          { s := bs.cpu.s, reads := bs.cpu.reads + 1, writes := bs.cpu.writes }
          bs.bap.cls bs.bap.word_address
          (REPLACE_LOWER bs.bap.data_word
            (bs.cpu.s.M (dataAddr r ((k + bytes.length) / 2)))) =
          some { s := { bs.cpu.s with
                        M := Function.update bs.cpu.s.M
                          (dataAddr r ((k + bytes.length) / 2))
                          (REPLACE_LOWER bs.bap.data_word
                            (bs.cpu.s.M (dataAddr r ((k + bytes.length) / 2))) % 65536) },
                 reads := bs.cpu.reads + 1, writes := bs.cpu.writes + 1 } := by
        rw [hcls, hwa]
        exact cpu_write_data r _ ((k + bytes.length) / 2) _ hwlt hrange
      have hupd : mem_update_byte r bs =
          some { bs with
                 cpu := { s := { bs.cpu.s with
                                 M := Function.update bs.cpu.s.M
                                   (dataAddr r ((k + bytes.length) / 2))
                                   (REPLACE_LOWER bs.bap.data_word
                                     (bs.cpu.s.M (dataAddr r ((k + bytes.length) / 2)))
                                     % 65536) },
                          reads := bs.cpu.reads + 1, writes := bs.cpu.writes + 1 },
                 bap := { bs.bap with
                          write_needed := false,
                          data_word := REPLACE_LOWER bs.bap.data_word
                            (bs.cpu.s.M (dataAddr r ((k + bytes.length) / 2))) } } := by
        unfold mem_update_byte
        rw [if_pos hwn, hrd]
        dsimp only
        rw [hwr]
      refine ⟨_, hupd, hcls, hvar, hcount, hio, hiw, rfl, ?_⟩
      · intro j hj
        show halfAt r (Function.update bs.cpu.s.M (dataAddr r ((k + bytes.length) / 2))
              (REPLACE_LOWER bs.bap.data_word
                (bs.cpu.s.M (dataAddr r ((k + bytes.length) / 2))) % 65536)) (k + j) =
            bytes.getD j 0 % 256
        by_cases hj1 : j = bytes.length - 1
        · subst hj1
          unfold halfAt
          have hdiv : (k + (bytes.length - 1)) / 2 = (k + bytes.length) / 2 := by omega
          rw [if_pos (show (k + (bytes.length - 1)) % 2 = 0 by omega), hdiv,
              Function.update_same]
          unfold UPPER_BYTE REPLACE_LOWER
          omega
        · have hne := dataAddr_ne r ((k + j) / 2) ((k + bytes.length) / 2)
            (by omega) (by omega) (by omega)
          unfold halfAt
          rw [Function.update_noteq hne]
          exact hfl j (by omega)

/-- `mem_reset_byte` on an accessor with no pending write just restores
the positioning fields and clears the count. -/
theorem mem_reset_byte_clean (r : Regs) (bs : BS)
    (hwn : bs.bap.write_needed = false) :
    mem_reset_byte r bs =
      some { bs with var := bs.bap.initial_byte_offset,
                     bap := { bs.bap with
                        word_address := bs.bap.initial_word_address,
                        count := 0 } } := by
  unfold mem_reset_byte mem_update_byte
  rw [if_neg (by rw [hwn]; exact Bool.false_ne_true)]

/-- One sequential byte read returns the byte written at the current
position and preserves the read-phase invariant. -/
theorem read_step (r : Regs) (k : Nat) (bytes : List Nat) (Mf : Nat → Nat)
    (i : Nat) (bs : BS)
    (hrange : ∀ w', w' < 65536 → (r.DBANK <<< 16 ||| w') < r.MEMSIZE)
    (hk : k + bytes.length < 65536)
    (hfl : ∀ j, j < bytes.length → halfAt r Mf (k + j) = bytes.getD j 0 % 256)
    (hi : i < bytes.length)
    (hInv : RInv r k Mf i bs) :
    ∃ bs1, mem_read_byte r bs = some (bytes.getD i 0 % 256, bs1) ∧
      RInv r k Mf (i + 1) bs1 := by
  obtain ⟨hcls, hvar, hcount, hwn, hM, hEv, hOd⟩ := hInv
  have hwlt : (k + i) / 2 < 65536 := by omega
  by_cases hm : (k + i) % 2 = 0
  · -- even position: advance and read a fresh word, take its upper half
    have hwa := hEv hm
    have hadv : (bs.bap.word_address + 1) % 65536 = (k + i) / 2 := by
      rw [hwa]; omega
    have hrd : cpu_read_memory r bs.cpu bs.bap.cls ((bs.bap.word_address + 1) % 65536) =
        some (bs.cpu.s.M (dataAddr r ((k + i) / 2)),
              { s := bs.cpu.s, reads := bs.cpu.reads + 1, writes := bs.cpu.writes }) := by
      rw [hcls, hadv]
      exact cpu_read_data r bs.cpu ((k + i) / 2) hwlt hrange
    have hbyte : UPPER_BYTE (bs.cpu.s.M (dataAddr r ((k + i) / 2))) =
        bytes.getD i 0 % 256 := by
      have h := hfl i hi
      unfold halfAt at h
      rw [if_pos hm] at h
      rw [hM]
      exact h
    have hrun := mem_read_byte_even r bs (by rw [hvar]; omega) hwn _ _ hrd
    rw [hbyte] at hrun
    refine ⟨_, hrun, hcls, ?_, ?_, hwn, hM, fun h => absurd h (by omega),
            fun _ => ⟨?_, fun _ => ?_⟩⟩
    · show (bs.var + 1) % 65536 = k + (i + 1)
      rw [hvar]; omega
    · show bs.bap.count + 1 = i + 1
      rw [hcount]
    · show (bs.bap.word_address + 1) % 65536 = (k + (i + 1)) / 2
      rw [hadv]; omega
    · show bs.cpu.s.M (dataAddr r ((k + i) / 2)) = Mf (dataAddr r ((k + (i + 1)) / 2))
      have hdiv : (k + i) / 2 = (k + (i + 1)) / 2 := by omega
      rw [hM, hdiv]
  · -- odd position: take the lower half of the cached (or first-read) word
    have hm1 : (k + i) % 2 = 1 := by omega
    obtain ⟨hwa, hcache⟩ := hOd hm1
    have hvo : bs.var % 2 = 1 := by rw [hvar]; exact hm1
    have hbyte : LOWER_BYTE (Mf (dataAddr r ((k + i) / 2))) = bytes.getD i 0 % 256 := by
      have h := hfl i hi
      unfold halfAt at h
      rw [if_neg (by omega)] at h
      exact h
    by_cases hi0 : i = 0
    · subst hi0
      have hrd : cpu_read_memory r bs.cpu bs.bap.cls bs.bap.word_address =
          some (bs.cpu.s.M (dataAddr r ((k + 0) / 2)),
                { s := bs.cpu.s, reads := bs.cpu.reads + 1, writes := bs.cpu.writes }) := by
        rw [hcls, hwa]
        exact cpu_read_data r bs.cpu ((k + 0) / 2) hwlt hrange
      have hrun := mem_read_byte_odd_first r bs hvo hcount _ _ hrd
      rw [hM, hbyte] at hrun
      refine ⟨_, hrun, hcls, ?_, ?_, hwn, ?_,
              fun _ => ?_, fun h => absurd h (by omega)⟩
      · show (bs.var + 1) % 65536 = k + (0 + 1)
        rw [hvar]; omega
      · show bs.bap.count + 1 = 0 + 1
        rw [hcount]
      · show bs.cpu.s.M = Mf
        exact hM
      · show bs.bap.word_address = ((k + (0 + 1)) / 2 + 65535) % 65536
        rw [hwa]; omega
    · have hdw := hcache (Nat.pos_of_ne_zero hi0)
      have hcnt : ¬ bs.bap.count = 0 := by rw [hcount]; exact hi0
      have hrun := mem_read_byte_odd_next r bs hvo hcnt
      rw [hdw, hbyte] at hrun
      refine ⟨_, hrun, hcls, ?_, ?_, hwn, hM,
              fun _ => ?_, fun h => absurd h (by omega)⟩
      · show (bs.var + 1) % 65536 = k + (i + 1)
        rw [hvar]; omega
      · show bs.bap.count + 1 = i + 1
        rw [hcount]
      · show bs.bap.word_address = ((k + (i + 1)) / 2 + 65535) % 65536
        rw [hwa]; omega

/-- Reading a whole suffix returns exactly the bytes written there (masked
to byte width). -/
theorem readBytes_spec (r : Regs) (k : Nat) (bytes : List Nat) (Mf : Nat → Nat)
    (hrange : ∀ w', w' < 65536 → (r.DBANK <<< 16 ||| w') < r.MEMSIZE)
    (hk : k + bytes.length < 65536)
    (hfl : ∀ j, j < bytes.length → halfAt r Mf (k + j) = bytes.getD j 0 % 256) :
    ∀ (l : List Nat) (i : Nat) (bs : BS),
      bytes.drop i = l → i + l.length = bytes.length →
      RInv r k Mf i bs →
      ∃ bs2, readBytes r bs l.length = some (l.map (fun b => b % 256), bs2) := by
  intro l
  induction l with
  | nil =>
    intro i bs hdrop hlen hInv
    exact ⟨bs, rfl⟩
  | cons b l ih =>
    intro i bs hdrop hlen hInv
    have hi : i < bytes.length := by
      simp only [List.length_cons] at hlen
      omega
    have hb : bytes.getD i 0 = b := getD_of_drop bytes l b i hdrop
    obtain ⟨bs1, hr, hInv1⟩ := read_step r k bytes Mf i bs hrange hk hfl hi hInv
    have hdrop1 : bytes.drop (i + 1) = l := by
      rw [← List.tail_drop, hdrop]
      rfl
    obtain ⟨bs2, hrs⟩ := ih (i + 1) bs1 hdrop1 (by
      simp only [List.length_cons] at hlen
      omega) hInv1
    refine ⟨bs2, ?_⟩
    rw [hb] at hr
    show readBytes r bs (l.length + 1) = some ((b :: l).map (fun b => b % 256), bs2)
    unfold readBytes
    rw [hr]
    dsimp only
    rw [hrs]
    rfl

/-- Initializing a byte accessor with the checked data classification at a
16-bit byte offset (block length 0, so only the first byte is validated,
which the privileged mode passes) succeeds and establishes the write-phase
invariant at position 0. -/
theorem init_spec (r : Regs) (cpu : CpuState) (k : Nat) (bytes : List Nat)
    (hpriv : r.PRIV = true) (hk : k < 65536) :
    ∃ bs0, mem_init_byte r cpu ACCESS_CLASS.data_checked k 0 = some bs0 ∧
      bs0.cpu = cpu ∧ WInv r k bytes 0 bs0 := by
  have hq : k / 2 % 65536 = k / 2 := Nat.mod_eq_of_lt (by omega)
  by_cases hk2 : k % 2 = 0
  · have hinit : mem_init_byte r cpu ACCESS_CLASS.data_checked k 0 =
        some { cpu := cpu, var := k, bap := {
          cls := ACCESS_CLASS.data, write_needed := false, first_byte_offset := k,
          length := 0, count := 0,
          initial_byte_address := TO_PA r.DBANK (k / 2 % 65536) * 2 + k % 2,
          initial_word_address := (k / 2 % 65536 + 65535) % 65536,
          first_byte_address := TO_PA r.DBANK (k / 2 % 65536) * 2 + k % 2,
          word_address := (k / 2 % 65536 + 65535) % 65536,
          data_word := 0, initial_byte_offset := k } } := by
      simp [mem_init_byte, mem_set_byte, mem_update_byte, cpu_byte_ea,
        INVERT_CHECK, isCheckedClass, mem_access_bank, Regs.bankVal, hpriv, hk2]
    refine ⟨_, hinit, rfl, rfl, rfl, rfl, rfl, ?_,
            fun _ => ⟨?_, rfl, fun j hj => absurd hj (Nat.not_lt_zero j)⟩,
            fun h => absurd h (by omega)⟩
    · show (k / 2 % 65536 + 65535) % 65536 =
          if k % 2 = 0 then (k / 2 + 65535) % 65536 else k / 2
      rw [hq, if_pos hk2]
    · show (k / 2 % 65536 + 65535) % 65536 = ((k + 0) / 2 + 65535) % 65536
      rw [hq]
      omega
  · have hinit : mem_init_byte r cpu ACCESS_CLASS.data_checked k 0 =
        some { cpu := cpu, var := k, bap := {
          cls := ACCESS_CLASS.data, write_needed := false, first_byte_offset := k,
          length := 0, count := 0,
          initial_byte_address := TO_PA r.DBANK (k / 2 % 65536) * 2 + k % 2,
          initial_word_address := k / 2 % 65536,
          first_byte_address := TO_PA r.DBANK (k / 2 % 65536) * 2 + k % 2,
          word_address := k / 2 % 65536,
          data_word := 0, initial_byte_offset := k } } := by
      simp [mem_init_byte, mem_set_byte, mem_update_byte, cpu_byte_ea,
        INVERT_CHECK, isCheckedClass, mem_access_bank, Regs.bankVal, hpriv, hk2]
    refine ⟨_, hinit, rfl, rfl, rfl, rfl, rfl, ?_,
            fun h => absurd h hk2,
            fun _ => ⟨?_, fun _ => rfl, fun h0 => absurd h0 (by omega)⟩⟩
    · show k / 2 % 65536 =
          if k % 2 = 0 then (k / 2 + 65535) % 65536 else k / 2
      rw [hq, if_neg hk2]
    · show k / 2 % 65536 = (k + 0) / 2
      rw [hq]
      omega

/-- Claim C6: for every starting byte offset `k` (even or odd) and every
byte list (odd or even length) fitting in the 16-bit offset space, with
the data bank resident: initializing a byte accessor at offset `k`
(checked data classification, block length 0), writing the bytes
sequentially with `mem_write_byte`, flushing with the `mem_update_byte`
terminator, rewinding with `mem_reset_byte`, and reading the same number
of bytes back with `mem_read_byte` yields exactly the byte sequence that
was written, in order. -/
theorem C6_byte_round_trip (r : Regs) (cpu : CpuState) (k : Nat) (bytes : List Nat)
    (hpriv : r.PRIV = true)
    (hrange : ∀ w', w' < 65536 → (r.DBANK <<< 16 ||| w') < r.MEMSIZE)
    (hk : k + bytes.length < 65536)
    (hb : ∀ b ∈ bytes, b < 256) :
    ∃ bs0 bs1 bs2 bs3 bs4,
      mem_init_byte r cpu ACCESS_CLASS.data_checked k 0 = some bs0 ∧
      writeBytes r bs0 bytes = some bs1 ∧
      mem_update_byte r bs1 = some bs2 ∧
      mem_reset_byte r bs2 = some bs3 ∧
      readBytes r bs3 bytes.length = some (bytes, bs4) := by
  obtain ⟨bs0, hinit, hcpu0, hInv0⟩ :=
    init_spec r cpu k bytes hpriv (by omega)
  obtain ⟨bs1, hw, hInv1⟩ :=
    writeBytes_inv r k bytes hrange hk bytes 0 bs0 rfl (by omega) hInv0
  obtain ⟨bs2, hupd, hcls2, hvar2, hcount2, hio2, hiw2, hwn2, hfl2⟩ :=
    update_after_writes r k bytes bs1 hrange hk hInv1
  have hreset := mem_reset_byte_clean r bs2 hwn2
  have hInvR : RInv r k bs2.cpu.s.M 0
      { bs2 with var := bs2.bap.initial_byte_offset,
                 bap := { bs2.bap with
                    word_address := bs2.bap.initial_word_address,
                    count := 0 } } := by
    refine ⟨hcls2, ?_, rfl, hwn2, rfl, fun h => ?_, fun h => ⟨?_, fun h0 => absurd h0 (by omega)⟩⟩
    · show bs2.bap.initial_byte_offset = k + 0
      rw [hio2]
      omega
    · show bs2.bap.initial_word_address = ((k + 0) / 2 + 65535) % 65536
      rw [hiw2, if_pos (by omega : k % 2 = 0)]
      omega
    · show bs2.bap.initial_word_address = (k + 0) / 2
      rw [hiw2, if_neg (by omega : ¬ k % 2 = 0)]
      omega
  obtain ⟨bs4, hread⟩ :=
    readBytes_spec r k bytes bs2.cpu.s.M hrange hk hfl2 bytes 0 _ rfl (by omega) hInvR
  have hmap : bytes.map (fun b => b % 256) = bytes := by
    have h1 : bytes.map (fun b => b % 256) = bytes.map id :=
      List.map_congr_left (fun a ha => Nat.mod_eq_of_lt (hb a ha))
    rw [h1, List.map_id]
  rw [hmap] at hread
  exact ⟨bs0, bs1, bs2, _, bs4, hinit, hw, hupd, hreset, hread⟩

/-- Claim C6 witness: the round-trip theorem applied with bank registers
`bexR` (privileged, data bank 0, 65536 words), starting offset 10 and the
three bytes 1, 2, 3. -/
theorem C6_witness :
    ∃ bs0 bs1 bs2 bs3 bs4,
      mem_init_byte bexR bexC ACCESS_CLASS.data_checked 10 0 = some bs0 ∧
      writeBytes bexR bs0 [1, 2, 3] = some bs1 ∧
      mem_update_byte bexR bs1 = some bs2 ∧
      mem_reset_byte bexR bs2 = some bs3 ∧
      readBytes bexR bs3 [1, 2, 3].length = some ([1, 2, 3], bs4) :=
  C6_byte_round_trip bexR bexC 10 [1, 2, 3] (by decide)
    (fun w hw => by simpa [bexR] using hw) (by decide) (by decide)

end HP3000
